import Mathlib

/-
  Verification of the core runtime machinery of gtk-gnutella:
  HCACHE (src/core/hcache.c), SQ (src/core/sq.c) and the BG cooperative
  scheduler (bg.c).  The C code is shallowly embedded: every cache, queue
  and task becomes an explicit first-order state, machine integers become
  Nat/Int with explicit reductions modulo 2^32 where the C converts
  between signed and unsigned, random_u32() draws become an explicit
  stream of naturals, and the glib hash lists become Lean lists
  (head = newest, as in the C).
-/

set_option linter.unusedVariables false

namespace GtkCore

/-- Host identity: address and port, as held in a gnet_host_t. -/
structure Host where
  addr : Nat
  port : Nat
deriving DecidableEq, Repr

/-- Host cache types, mirroring hcache_type_t.  HCACHE_NONE and HCACHE_MAX
are omitted: every entry point of hcache.c asserts them away. -/
inductive HType where
  | freshAny
  | validAny
  | freshUltra
  | validUltra
  | timeout
  | busy
  | unstable
  | alien
  | guess
  | guessIntro
deriving DecidableEq, Repr, Fintype

/-- Host cache classes, mirroring hcache_class_t. -/
inductive HClass where
  | host
  | guessC
deriving DecidableEq, Repr, Fintype

/-- Host kinds, mirroring host_type_t (HOST_ANY, HOST_ULTRA, HOST_GUESS). -/
inductive HostKind where
  | any
  | ultra
  | guessK
deriving DecidableEq, Repr, Fintype

/-- The gnet properties counting cache populations (hosts_in_catcher and
friends); the four good caches share two of them and the four bad caches
share one, exactly as in hcache_init. -/
inductive CatcherP where
  | anyC
  | ultraC
  | badC
  | guessC
  | guessIntroC
deriving DecidableEq, Repr, Fintype

/-- Metadata stored for a host in the per-class hash table,
mirroring hostcache_entry_t. -/
structure HEntry where
  hty : HType
  time_added : Int
deriving DecidableEq, Repr

/-- hcache_class from hcache.c: maps a cache type to its class. -/
def hcacheClass : HType → HClass
  | .freshAny => .host
  | .validAny => .host
  | .freshUltra => .host
  | .validUltra => .host
  | .timeout => .host
  | .busy => .host
  | .unstable => .host
  | .alien => .host
  | .guess => .guessC
  | .guessIntro => .guessC

/-- The addr_only flag of each cache as set in hcache_init (TRUE exactly for
the timeout, busy and unstable caches). -/
def addrOnly : HType → Bool
  | .timeout => true
  | .busy => true
  | .unstable => true
  | _ => false

/-- The hosts_in_catcher property attached to each cache in hcache_init. -/
def catcherOf : HType → CatcherP
  | .freshAny => .anyC
  | .validAny => .anyC
  | .freshUltra => .ultraC
  | .validUltra => .ultraC
  | .timeout => .badC
  | .busy => .badC
  | .unstable => .badC
  | .alien => .badC
  | .guess => .guessC
  | .guessIntro => .guessIntroC

/-- The four good cache types (the FRESH/VALID switch of
hcache_add_internal's already-connected check). -/
def isGoodType : HType → Bool
  | .freshAny => true
  | .freshUltra => true
  | .validAny => true
  | .validUltra => true
  | _ => false

/-- The four bad cache types (the TIMEOUT/BUSY/UNSTABLE/ALIEN switches of
hcache_add_internal). -/
def isBadCacheType : HType → Bool
  | .timeout => true
  | .busy => true
  | .unstable => true
  | .alien => true
  | _ => false

/-- Environment of hcache.c: gnet properties, the clock, and the external
predicates (settings.c, nodes.c, bogons.c, hostiles.c, hosts.c) consulted
during admission.  These are parameters of the model, not part of the
mutable cache state. -/
structure HEnv where
  now : Int
  stop_host_get : Bool
  node_monitor_unstable_ip : Bool
  max_hosts_cached : Nat
  max_ultra_hosts_cached : Nat
  max_bad_hosts_cached : Nat
  max_guess_hosts_cached : Nat
  max_guess_intro_hosts_cached : Nat
  use_netmasks : Bool
  number_local_networks : Nat
  is_my_address_and_port : Host → Bool
  node_host_is_connected : Host → Bool
  host_addr_is_routable : Nat → Bool
  port_is_valid : Nat → Bool
  bogons_check : Nat → Bool
  hostiles_check : Nat → Bool
  host_is_nearby : Nat → Bool

/-- Mutable state of hcache.c: the ten host lists, the two per-class hash
tables, per-cache counters and flags, the population properties, the
host_low_on_pongs global and the stats array. -/
structure HS where
  lists : HType → List Host
  htab : HClass → Host → Option HEntry
  hits : HType → Nat
  misses : HType → Nat
  dirty : HType → Bool
  massUpdate : HType → Nat
  props : CatcherP → Nat
  low_on_pongs : Bool
  statLocal : Nat
  statConnected : Nat
  statInvalid : Nat

/-- 2^32, the modulus of the C guint32 arithmetic. -/
def U32 : Nat := 4294967296

def setList (s : HS) (t : HType) (l : List Host) : HS :=
  { s with lists := fun u => if u = t then l else s.lists u }

def setTab (s : HS) (c : HClass) (h : Host) (e : Option HEntry) : HS :=
  { s with htab := fun d k => if d = c ∧ k = h then e else s.htab d k }

def setDirty (s : HS) (t : HType) : HS :=
  { s with dirty := fun u => if u = t then true else s.dirty u }

def bumpHits (s : HS) (t : HType) : HS :=
  { s with hits := fun u => if u = t then s.hits u + 1 else s.hits u }

def bumpMisses (s : HS) (t : HType) : HS :=
  { s with misses := fun u => if u = t then s.misses u + 1 else s.misses u }

/-- gnet_prop_set_guint32_val: properties are guint32, stored modulo 2^32. -/
def propSet (s : HS) (p : CatcherP) (v : Nat) : HS :=
  { s with props := fun q => if q = p then v % U32 else s.props q }

/-- hcache_size from hcache.c: the population of a host kind is the summed
length of its two halves. -/
def hcache_size (s : HS) (k : HostKind) : Nat :=
  match k with
  | .any => (s.lists .freshAny).length + (s.lists .validAny).length
  | .ultra => (s.lists .freshUltra).length + (s.lists .validUltra).length
  | .guessK => (s.lists .guess).length + (s.lists .guessIntro).length

/-- hcache_slots_max from hcache.c. -/
def hcache_slots_max (env : HEnv) (t : HType) : Nat :=
  match t with
  | .freshAny | .validAny => env.max_hosts_cached
  | .freshUltra | .validUltra => env.max_ultra_hosts_cached
  | .busy | .timeout | .unstable | .alien => env.max_bad_hosts_cached
  | .guess => env.max_guess_hosts_cached
  | .guessIntro => env.max_guess_intro_hosts_cached

/-- hcache_slots_left from hcache.c, over mathematical integers: the C
computes limit - current in int and can return a negative value. -/
def hcache_slots_left (env : HEnv) (s : HS) (t : HType) : Int :=
  let limit : Int := hcache_slots_max env t
  let current : Int :=
    match t with
    | .freshAny | .validAny => hcache_size s .any
    | .freshUltra | .validUltra => hcache_size s .ultra
    | _ => (s.lists t).length
  limit - current

/-- hcache_request_slot from hcache.c.  The local variables limit and left
are guint in the C; assigning the int result of hcache_slots_left to left
reduces it modulo 2^32, which is what the explicit emod models.  r is the
random_u32() draw. -/
def hcache_request_slot (env : HEnv) (s : HS) (t : HType) (r : Nat) : Bool :=
  let limit : Nat := hcache_slots_max env t
  let left : Nat := ((hcache_slots_left env s t) % (U32 : Int)).toNat
  decide (0 < limit) &&
    (decide (0 < left) &&
      (decide (limit / 2 < left) || decide (r % U32 % limit < left)))

/-- hcache_update_low_on_pongs from hcache.c. -/
def hcache_update_low_on_pongs (env : HEnv) (s : HS) : HS :=
  { s with low_on_pongs := decide (hcache_size s .any < env.max_hosts_cached / 8) }

/-- hcache_move_entries from hcache.c: the target list is overwritten with
the source list, the source gets a fresh empty list (in this order, so the
aliased call on an empty cache leaves it empty), and the metadata of every
host on the resulting target list is retyped to the target's type. -/
def hcache_move_entries (s : HS) (toT fromT : HType) : HS :=
  let l1 : HType → List Host := fun u => if u = toT then s.lists fromT else s.lists u
  let l2 : HType → List Host := fun u => if u = fromT then [] else l1 u
  let moved := l2 toT
  { s with
    lists := l2
    htab := fun c h =>
      if c = hcacheClass toT ∧ h ∈ moved then
        match s.htab c h with
        | some e => some { e with hty := toT }
        | none => none
      else s.htab c h }

/-- hcache_require_caught from hcache.c: for the ANY and ULTRA types, if the
addressed cache is empty, splice the corresponding VALID cache into it;
report whether hosts are now available. -/
def hcache_require_caught (s : HS) (t : HType) : Bool × HS :=
  match t with
  | .freshAny | .validAny =>
    let s1 := if (s.lists t).length = 0 then hcache_move_entries s t .validAny else s
    (decide ((s1.lists t).length ≠ 0), s1)
  | .freshUltra | .validUltra =>
    let s1 := if (s.lists t).length = 0 then hcache_move_entries s t .validUltra else s
    (decide ((s1.lists t).length ≠ 0), s1)
  | _ => (decide ((s.lists t).length ≠ 0), s)

/-- hcache_ht_remove from hcache.c (the unknown-host branch only logs). -/
def hcache_ht_remove (s : HS) (c : HClass) (h : Host) : HS :=
  match s.htab c h with
  | none => s
  | some _ => setTab s c h none

/-- hcache_unlink_host from hcache.c: remove from the cache's list, update
the population property outside mass updates, mark dirty, drop the hash
table entry, then re-splice via hcache_require_caught (hcache_close is not
modelled, so close_running is always false). -/
def hcache_unlink_host (s : HS) (t : HType) (h : Host) : HS :=
  let s1 := setList s t ((s.lists t).erase h)
  let s2 :=
    if s1.massUpdate t = 0 then
      propSet s1 (catcherOf t) (s1.props (catcherOf t) + U32 - 1)
    else s1
  let s3 := setDirty s2 t
  let s4 := hcache_ht_remove s3 (hcacheClass t) h
  (hcache_require_caught s4 t).2

/-- hcache_remove from hcache.c: find the entry's metadata and unlink the
host from the cache recorded there (unknown hosts only log). -/
def hcache_remove (s : HS) (c : HClass) (h : Host) : HS :=
  match s.htab c h with
  | none => s
  | some e => hcache_unlink_host s e.hty h

/-- start_mass_update from hcache.c. -/
def start_mass_update (s : HS) (t : HType) : HS :=
  { s with massUpdate := fun u => if u = t then s.massUpdate u + 1 else s.massUpdate u }

/-- stop_mass_update from hcache.c: when the last bracket closes, publish
the population of the cache's group into its property. -/
def stop_mass_update (s : HS) (t : HType) : HS :=
  let s1 : HS :=
    { s with massUpdate := fun u => if u = t then s.massUpdate u - 1 else s.massUpdate u }
  if s1.massUpdate t = 0 then
    match t with
    | .freshAny | .validAny => propSet s1 .anyC (hcache_size s1 .any)
    | .freshUltra | .validUltra => propSet s1 .ultraC (hcache_size s1 .ultra)
    | .timeout | .unstable | .busy | .alien =>
      propSet s1 .badC
        ((s1.lists .timeout).length + (s1.lists .unstable).length +
          (s1.lists .busy).length + (s1.lists .alien).length)
    | .guess => propSet s1 .guessC (s1.lists .guess).length
    | .guessIntro => propSet s1 .guessIntroC (s1.lists .guessIntro).length
  else s1

/-- The eviction loop of hcache_prune: each round picks a victim (for the
GUESS cache, with probability 70/100 the entry just after the head, the
head itself if there is no such entry; otherwise the tail) and removes it;
an empty list stops the loop (the C logs a BUG there).  The random stream
is consumed only when the cache is the GUESS one, matching the
short-circuit evaluation in the C. -/
def hcache_prune_loop (t : HType) (s : HS) (rnd : List Nat) (n : Nat) : HS :=
  match n with
  | 0 => s
  | n+1 =>
    let pick : Option Host × List Nat :=
      if t = .guess then
        (if decide ((rnd.headD 0) % U32 % 100 < 70) then
          match ((s.lists t).drop 1).head? with
          | some h => some h
          | none => (s.lists t).head?
        else (s.lists t).getLast?, rnd.tail)
      else ((s.lists t).getLast?, rnd)
    match pick.1 with
    | none => s
    | some h => hcache_prune_loop t (hcache_remove s (hcacheClass t) h) pick.2 n

/-- hcache_prune from hcache.c: HALF_PRUNE redirects pruning of a good type
to its longer sibling half; then, while over capacity, evict hosts under a
mass-update bracket (with a hcache_require_caught refill first). -/
def hcache_prune (env : HEnv) (s : HS) (t : HType) (rnd : List Nat) : HS :=
  let pt : HType :=
    match t with
    | .validAny => if (s.lists t).length < (s.lists .freshAny).length then .freshAny else t
    | .validUltra => if (s.lists t).length < (s.lists .freshUltra).length then .freshUltra else t
    | .freshAny => if (s.lists t).length < (s.lists .validAny).length then .validAny else t
    | .freshUltra => if (s.lists t).length < (s.lists .validUltra).length then .validUltra else t
    | _ => t
  let extra := hcache_slots_left env s pt
  if 0 ≤ extra then s
  else
    let s1 := start_mass_update s pt
    let s2 := (hcache_require_caught s1 pt).2
    let s3 := hcache_prune_loop pt s2 rnd (-extra).toNat
    stop_mass_update s3 pt

/-- hcache_ht_add from hcache.c: the fresh metadata records the target type
and tm_time() — the current time, not the caller-supplied added time. -/
def hcache_ht_add (env : HEnv) (s : HS) (t : HType) (h : Host) : HS :=
  setTab s (hcacheClass t) h (some { hty := t, time_added := env.now })

/-- The duplicate move of hcache_add_internal: unlink from the old cache's
list, prepend to the target list, mark both dirty, retype and re-date the
metadata in place. -/
def hcache_dup_move (s : HS) (t : HType) (added : Int) (h : Host) (e : HEntry) : HS :=
  let s1 := setList s e.hty ((s.lists e.hty).erase h)
  let s2 := setList s1 t (h :: s1.lists t)
  let s3 := setDirty (setDirty s2 e.hty) t
  setTab s3 (hcacheClass t) h (some { hty := t, time_added := added })

/-- The next random_u32() draw of a stream (0 when exhausted). -/
def rdraw (rnd : List Nat) : Nat := rnd.headD 0

/-- Check 1 of hcache_add_internal: the stop_host_get property. -/
def chkStop (env : HEnv) : Bool := env.stop_host_get

/-- Check 2 of hcache_add_internal: UNSTABLE additions are refused when
unstable monitoring is off or the host is low on pongs. -/
def chkUnstable (env : HEnv) (s : HS) (t : HType) : Bool :=
  t = .unstable && (!env.node_monitor_unstable_ip || s.low_on_pongs)

/-- Check 3 of hcache_add_internal: this node's own address and port. -/
def chkMyAddr (env : HEnv) (h : Host) : Bool := env.is_my_address_and_port h

/-- Check 4 of hcache_add_internal: for the four good caches, an already
connected host is refused. -/
def chkConnected (env : HEnv) (t : HType) (h : Host) : Bool :=
  isGoodType t && env.node_host_is_connected h

/-- Check 5 of hcache_add_internal: a non-routable address is refused
unless the cache is address-only and the port valid. -/
def chkUnroutable (env : HEnv) (t : HType) (h : Host) : Bool :=
  !env.host_addr_is_routable h.addr && (!addrOnly t || !env.port_is_valid h.port)

/-- Check 6 of hcache_add_internal: bogus and hostile addresses. -/
def chkBogus (env : HEnv) (h : Host) : Bool :=
  env.bogons_check h.addr || env.hostiles_check h.addr

/-- The guard of the port heuristic of hcache_add_internal: ports 6346-6350
while not low on pongs.  Only then is a random byte drawn. -/
def portZone (s : HS) (h : Host) : Bool :=
  decide (6346 ≤ h.port) && decide (h.port ≤ 6350) && !s.low_on_pongs

/-- Check 7 of hcache_add_internal: the port heuristic rejects when the
random byte (the draw, reduced to its low 8 bits) exceeds 31. -/
def chkPortReject (s : HS) (h : Host) (r : Nat) : Bool :=
  portZone s h && decide (31 < r % U32 % 256)

/-- hcache_add_internal from hcache.c.  rnd is the stream of random_u32()
draws, consumed in the order of the C: one draw for the port heuristic
(only when the port zone test is evaluated), one for the slot filter, then
one per GUESS eviction inside hcache_prune. -/
def hcache_add_internal (env : HEnv) (s : HS) (t : HType) (added : Int) (h : Host)
    (rnd : List Nat) : Bool × HS :=
  if chkStop env then (false, s)
  else if chkUnstable env s t then (false, s)
  else if chkMyAddr env h then (false, { s with statLocal := s.statLocal + 1 })
  else if chkConnected env t h then
    (false, { s with statConnected := s.statConnected + 1 })
  else if chkUnroutable env t h then
    (false, { s with statInvalid := s.statInvalid + 1 })
  else if chkBogus env h then
    (false, { s with statInvalid := s.statInvalid + 1 })
  else
    let rnd1 := if portZone s h then rnd.tail else rnd
    if chkPortReject s h (rdraw rnd) then (false, s)
    else
      match s.htab (hcacheClass t) h with
      | some e =>
        let s1 := bumpHits s t
        if isBadCacheType t then
          if isBadCacheType e.hty then (true, s1)
          else (true, hcache_dup_move s1 t added h e)
        else if t = .validUltra || t = .freshUltra then
          if e.hty = .validAny || e.hty = .freshAny then (true, hcache_dup_move s1 t added h e)
          else (true, s1)
        else if t = .guess || t = .guessIntro then
          (true, hcache_unlink_host s1 e.hty h)
        else (true, s1)
      | none =>
        if !hcache_request_slot env s t (rdraw rnd1) then (true, s)
        else
          let s1 := hcache_ht_add env s t h
          let s2 := setList s1 t (h :: s1.lists t)
          let s3 := bumpMisses s2 t
          let s4 := setDirty s3 t
          let s5 :=
            if s4.massUpdate t = 0 then
              propSet s4 (catcherOf t) (s4.props (catcherOf t) + 1)
            else s4
          let s6 := hcache_prune env s5 t rnd1.tail
          let s7 := hcache_update_low_on_pongs env s6
          (true, s7)

/-- hcache_add from hcache.c: hcache_add_internal at the current time. -/
def hcache_add (env : HEnv) (s : HS) (t : HType) (h : Host) (rnd : List Nat) : Bool × HS :=
  hcache_add_internal env s t env.now h rnd

/-- The conjunction of the admission sanity checks of hcache_add_internal,
in the order the C evaluates them; the last conjunct is the port heuristic
with its random byte draw. -/
def hcache_sanity_ok (env : HEnv) (s : HS) (t : HType) (h : Host) (rnd : List Nat) : Bool :=
  !chkStop env &&
  !chkUnstable env s t &&
  !chkMyAddr env h &&
  !chkConnected env t h &&
  !chkUnroutable env t h &&
  !chkBogus env h &&
  !chkPortReject s h (rdraw rnd)

/-- HOSTCACHE_EXPIRY from hcache.c: 30 minutes, in seconds. -/
def HOSTCACHE_EXPIRY : Int := 1800

/-- The pruning loop of hcache_expire_cache: while the tail entry has been
in the cache for more than HOSTCACHE_EXPIRY seconds, remove it; the first
non-expired tail stops the walk (the list is sorted by time_added).  The
g_assert that metadata exists is modelled by stopping, which the table
invariant makes unreachable. -/
def hcache_expire_loop (t : HType) (now : Int) (s : HS) (fuel : Nat) : HS × Nat :=
  match fuel with
  | 0 => (s, 0)
  | n+1 =>
    match (s.lists t).getLast? with
    | none => (s, 0)
    | some h =>
      match s.htab (hcacheClass t) h with
      | none => (s, 0)
      | some e =>
        if HOSTCACHE_EXPIRY < now - e.time_added then
          let r := hcache_expire_loop t now (hcache_remove s (hcacheClass t) h) n
          (r.1, r.2 + 1)
        else (s, 0)

/-- hcache_expire_cache from hcache.c. -/
def hcache_expire_cache (s : HS) (t : HType) (now : Int) : HS × Nat :=
  hcache_expire_loop t now s (s.lists t).length

/-- hcache_expire_all from hcache.c: expire the TIMEOUT, BUSY and UNSTABLE
caches, in this order. -/
def hcache_expire_all (s : HS) (now : Int) : HS × Nat :=
  let r1 := hcache_expire_cache s .timeout now
  let r2 := hcache_expire_cache r1.1 .busy now
  let r3 := hcache_expire_cache r2.1 .unstable now
  (r3.1, r1.2 + r2.2 + r3.2)

/-- hcache_timer from hcache.c, the once-per-second callback: expire all (the
debug dumps have no effect on the state). -/
def hcache_timer (s : HS) (now : Int) : HS :=
  (hcache_expire_all s now).1

/-- The FRESH cache serving a host kind (hcache_get_caught's switch before
the GUESS fallback). -/
def kindFresh : HostKind → HType
  | .any => .freshAny
  | .ultra => .freshUltra
  | .guessK => .guess

/-- The VALID cache of a host kind. -/
def kindValid : HostKind → HType
  | .any => .validAny
  | .ultra => .validUltra
  | .guessK => .guessIntro

/-- hcache_find_nearby from hcache.c: the first host of the kind's FRESH
cache on a nearby network is unlinked and returned. -/
def hcache_find_nearby (env : HEnv) (s : HS) (k : HostKind) : Option Host × HS :=
  let t := kindFresh k
  match (s.lists t).find? (fun h => env.host_is_nearby h.addr) with
  | some h => (some h, hcache_unlink_host s t h)
  | none => (none, s)

/-- hcache_get_caught from hcache.c: select the cache (GUESS falls back to
GUESS_INTRO when empty), refill it via hcache_require_caught, refresh
host_low_on_pongs, then yield a nearby host if netmasks are in use, else
the head of the list; the yielded host is unlinked. -/
def hcache_get_caught (env : HEnv) (s : HS) (k : HostKind) : Option Host × HS :=
  let t : HType :=
    match k with
    | .any => .freshAny
    | .ultra => .freshUltra
    | .guessK => if (s.lists .guess).length = 0 then .guessIntro else .guess
  let rc := hcache_require_caught s t
  let s1 := hcache_update_low_on_pongs env rc.2
  if !rc.1 then (none, s1)
  else
    let tryNear : Bool :=
      env.use_netmasks && decide (env.number_local_networks ≠ 0) && !(k = .guessK)
    let afterNear : Option Host × HS :=
      if tryNear then hcache_find_nearby env s1 k else (none, s1)
    match afterNear with
    | (some h, s2) => (some h, s2)
    | (none, s2) =>
      match (s2.lists t).head? with
      | some h => (some h, hcache_unlink_host s2 t h)
      | none => (none, s2)

/-
  SQ: the search queues of src/core/sq.c.
-/

/-- The fields of a gnutella_node consulted by sq_process for a per-peer
queue. -/
structure SqNode where
  received : Nat
  query_hops_ok : Bool
  writable : Bool
  tx_flow_control : Bool
deriving DecidableEq, Repr

/-- A search queue entry, mirroring smsg_t: message block, search handle and
optional query hash vector, all by opaque identity. -/
structure SMsg where
  shandle : Nat
  mb : Nat
  qhv : Option Nat
deriving DecidableEq, Repr

/-- A search queue, mirroring squeue_t: optional node binding, the LIFO list
of entries (head = newest), the handles hash table (as a list of keys), and
the counters. -/
structure SQueue where
  node : Option SqNode
  searches : List SMsg
  handles : List Nat
  count : Nat
  n_sent : Nat
  n_dropped : Nat
  last_sent : Int
deriving DecidableEq, Repr

/-- Gnutella peer modes (node_peer_t), as far as sq.c distinguishes them. -/
inductive PeerMode where
  | leaf
  | normal
  | ultra
deriving DecidableEq, Repr, Fintype

/-- Environment of sq.c: the properties and external predicates it reads. -/
structure SEnv where
  search_queue_spacing : Int
  search_queue_size : Nat
  current_peermode : PeerMode
  up_connections : Nat
  node_connected : Nat
  search_query_allowed : Nat → Bool

/-- Modelled from the spec: node_keep_missing of nodes.c is not part of the
sources; per the specification's data flow it reports how many of the
up_connections ultrapeer connections are still missing, i.e. the configured
target minus the connected count, never below zero. -/
def node_keep_missing (env : SEnv) : Nat :=
  env.up_connections - env.node_connected

/-- sqh_exists from sq.c. -/
def sqh_exists (sq : SQueue) (sh : Nat) : Bool :=
  sq.handles.contains sh

/-- sq_make from sq.c (last_sent is initialised to the creation time). -/
def sq_make (node : Option SqNode) (now : Int) : SQueue :=
  { node := node, searches := [], handles := [], count := 0,
    n_sent := 0, n_dropped := 0, last_sent := now }

/-- The drop loop of cap_queue: while over the configured size, unlink the
tail (oldest) entry, count the drop and remove its handle.  The fuel is the
entry count, which bounds the number of drops. -/
def cap_queue_loop (env : SEnv) (sq : SQueue) (fuel : Nat) : SQueue :=
  match fuel with
  | 0 => sq
  | n+1 =>
    if env.search_queue_size < sq.count then
      match sq.searches.getLast? with
      | none => sq
      | some sb =>
        cap_queue_loop env
          { sq with
            searches := sq.searches.dropLast
            count := sq.count - 1
            n_dropped := sq.n_dropped + 1
            handles := sq.handles.erase sb.shandle } n
    else sq

/-- cap_queue from sq.c. -/
def cap_queue (env : SEnv) (sq : SQueue) : SQueue :=
  cap_queue_loop env sq sq.count

/-- sq_puthere from sq.c: a duplicate search handle is dropped silently;
otherwise the entry is prepended, its handle recorded, the count bumped and
the queue capped. -/
def sq_puthere (env : SEnv) (sq : SQueue) (sh : Nat) (mb : Nat) (qhv : Option Nat) : SQueue :=
  if sqh_exists sq sh then sq
  else
    let sq1 : SQueue :=
      { sq with
        handles := sh :: sq.handles
        searches := { shandle := sh, mb := mb, qhv := qhv } :: sq.searches
        count := sq.count + 1 }
    if env.search_queue_size < sq1.count then cap_queue env sq1 else sq1

/-- sq_putq from sq.c. -/
def sq_putq (env : SEnv) (sq : SQueue) (sh : Nat) (mb : Nat) : SQueue :=
  sq_puthere env sq sh mb none

/-- sq_global_putq from sq.c (applied to the global queue). -/
def sq_global_putq (env : SEnv) (gsq : SQueue) (sh : Nat) (mb : Nat) (qhv : Nat) : SQueue :=
  sq_puthere env gsq sh mb (some qhv)

/-- sq_clear from sq.c: every queued entry is discarded and the count reset;
the handles table is left as it is. -/
def sq_clear (sq : SQueue) : SQueue :=
  { sq with searches := [], count := 0 }

/-- sq_set_peermode from sq.c, acting on the global queue. -/
def sq_set_peermode (mode : PeerMode) (gsq : SQueue) : SQueue :=
  if mode ≠ .ultra then sq_clear gsq else gsq

/-- The body of sq_process with its retry loop: each round either returns
without touching the queue (pacing), or pops the newest entry and
dispatches it (second component collects dispatched entries), or — for a
per-peer queue whose search is vetoed — discards it and retries.  The fuel
bounds the retries by the entry count. -/
def sq_process_loop (env : SEnv) (sq : SQueue) (now : Int) (fuel : Nat) : SQueue × List SMsg :=
  match fuel with
  | 0 => (sq, [])
  | n+1 =>
    if sq.count = 0 then (sq, [])
    else if now - sq.last_sent < env.search_queue_spacing then (sq, [])
    else
      match sq.node with
      | some nd =>
        if nd.received = 0 then (sq, [])
        else if !nd.query_hops_ok then (sq, [])
        else if !nd.writable then (sq, [])
        else if nd.tx_flow_control then (sq, [])
        else
          match sq.searches with
          | [] => (sq, [])
          | sb :: rest =>
            if env.search_query_allowed sb.shandle then
              ({ sq with
                  count := sq.count - 1
                  n_sent := sq.n_sent + 1
                  last_sent := now
                  handles := sq.handles.erase sb.shandle
                  searches := rest }, [sb])
            else
              sq_process_loop env
                { sq with
                  count := sq.count - 1
                  handles := sq.handles.erase sb.shandle
                  searches := rest } now n
      | none =>
        if env.current_peermode ≠ .ultra then (sq, [])
        else if 2 * env.up_connections < node_keep_missing env * 3 then (sq, [])
        else
          match sq.searches with
          | [] => (sq, [])
          | sb :: rest =>
            ({ sq with
                count := sq.count - 1
                n_sent := sq.n_sent + 1
                last_sent := now
                handles := sq.handles.erase sb.shandle
                searches := rest }, [sb])

/-- sq_process from sq.c. -/
def sq_process (env : SEnv) (sq : SQueue) (now : Int) : SQueue × List SMsg :=
  sq_process_loop env sq now (sq.count + 1)

/-
  BG: the cooperative background-task scheduler of bg.c.
-/

/-- Step return codes, mirroring bgret_t. -/
inductive BgRet where
  | done
  | next
  | more
  | error
deriving DecidableEq, Repr, Fintype

/-- Termination status, mirroring bgstatus_t. -/
inductive BgStatus where
  | ok
  | killed
  | error
deriving DecidableEq, Repr, Fintype

/-- A background task, mirroring struct bgtask.  The operating flags become
individual booleans; the step vector is kept only through stepcnt and the
current step index (the step functions themselves are external code); the
gdouble tick_cost is modelled by an exact rational. -/
structure BgTask where
  daemon : Bool
  exited : Bool
  signalFlag : Bool
  running : Bool
  zombie : Bool
  notick : Bool
  sleeping : Bool
  runnable : Bool
  step : Nat
  seqno : Nat
  stepcnt : Nat
  exitcode : Int
  tick_cost : Rat
  ticks : Int
  ticks_used : Int
  prev_ticks : Int
  elapsed : Int
  wtime : Int
  hasDoneCb : Bool
  wq : List Nat
deriving DecidableEq, Repr

/-- MAX_LIFE from bg.c: wall-clock budget per bg_sched_timer call, in
microseconds. -/
def MAX_LIFE : Nat := 150000

/-- MIN_LIFE from bg.c: minimum lifetime per task per activation, in
microseconds. -/
def MIN_LIFE : Nat := 40000

/-- DELTA_FACTOR from bg.c: granted ticks vary by at most this factor. -/
def DELTA_FACTOR : Int := 4

/-- The per-activation time budget computed by bg_sched_timer:
MAX(MIN_LIFE, MAX_LIFE / runcount). -/
def bg_target (runcount : Nat) : Nat :=
  max MIN_LIFE (MAX_LIFE / runcount)

/-- Truncation toward zero of a rational, as the C double-to-int conversion
does. -/
def ratTrunc (q : Rat) : Int :=
  if 0 ≤ q then ⌊q⌋ else ⌈q⌉

/-- The tick computation of bg_sched_timer: with a known tick cost, grant
1 + target / tick_cost ticks (a double division truncated to gint),
clamped against prev_ticks by DELTA_FACTOR in both directions; with no
known cost, grant a single tick. -/
def bg_ticks_granted (target : Nat) (cost : Rat) (prev : Int) : Int :=
  if cost ≠ 0 then
    let t := ratTrunc (1 + (target : Rat) / cost)
    if prev ≠ 0 then
      if prev * DELTA_FACTOR < t then prev * DELTA_FACTOR
      else if DELTA_FACTOR * t < prev then Int.tdiv prev DELTA_FACTOR
      else t
    else t
  else 1

/-- The ticks bg_sched_timer grants to the picked task when runcount tasks
are runnable. -/
def bg_sched_ticks (runcount : Nat) (cost : Rat) (prev : Int) : Int :=
  bg_ticks_granted (bg_target runcount) cost prev

/-- The status computation of bg_task_terminate: KILLED when the SIGNAL
flag is set, ERROR on a non-zero exit code, OK otherwise. -/
def bg_status_of (bt : BgTask) : BgStatus :=
  if bt.signalFlag then .killed
  else if bt.exitcode ≠ 0 then .error
  else .ok

/-- bg_task_terminate from bg.c, for a task that is no longer running (the
scheduler reaches it only after bg_task_switch(NULL)): wake it if
sleeping, mark it exited and unscheduled, compute the status, flag a
zombie when a non-OK status has no done callback to collect it, and clear
the zombie flag again once the done callback has run.  The run queue,
runcount and dead list are global bookkeeping outside the task record. -/
def bg_task_terminate (bt : BgTask) : BgTask × BgStatus :=
  let bt1 := if bt.sleeping then { bt with sleeping := false, runnable := true } else bt
  let bt2 := { bt1 with exited := true, runnable := false }
  let status := bg_status_of bt2
  let bt3 :=
    if status ≠ .ok ∧ !bt2.hasDoneCb then { bt2 with zombie := true } else bt2
  let bt4 := if bt3.hasDoneCb then { bt3 with zombie := false } else bt3
  (bt4, status)

/-- bg_task_ended from bg.c: a non-daemon task is terminated; a daemon
finishes its queue head (end callback, unqueue, free), resets step, seqno
and tick cost, and goes back to sleep when its work queue empties. -/
def bg_task_ended (bt : BgTask) : BgTask × Option BgStatus :=
  if !bt.daemon then
    let r := bg_task_terminate bt
    (r.1, some r.2)
  else
    match bt.wq with
    | [] => (bt, none)
    | _ :: rest =>
      let bt1 := { bt with wq := rest, tick_cost := 0, seqno := 0, step := 0 }
      if rest.isEmpty then ({ bt1 with sleeping := true, runnable := false }, none)
      else (bt1, none)

/-- The return-code switch at the end of bg_sched_timer's loop: DONE ends
the task, NEXT advances to the next step (ending the task after the last
one), MORE counts another call at the same step, ERROR fakes an exit(-1)
and terminates. -/
def bg_sched_interpret (bt : BgTask) (ret : BgRet) : BgTask × Option BgStatus :=
  match ret with
  | .done => bg_task_ended bt
  | .next =>
    if bt.step = bt.stepcnt - 1 then bg_task_ended bt
    else ({ bt with seqno := 0, step := bt.step + 1, tick_cost := 0 }, none)
  | .more => ({ bt with seqno := bt.seqno + 1 }, none)
  | .error =>
    let r := bg_task_terminate { bt with exitcode := -1 }
    (r.1, some r.2)

/-
  Concrete instances used by the witnesses below.
-/

/-- A permissive environment: no filter rejects, generous limits. -/
def envA : HEnv :=
  { now := 100
    stop_host_get := false
    node_monitor_unstable_ip := true
    max_hosts_cached := 100
    max_ultra_hosts_cached := 100
    max_bad_hosts_cached := 100
    max_guess_hosts_cached := 100
    max_guess_intro_hosts_cached := 100
    use_netmasks := false
    number_local_networks := 0
    is_my_address_and_port := fun _ => false
    node_host_is_connected := fun _ => false
    host_addr_is_routable := fun _ => true
    port_is_valid := fun p => decide (p ≠ 0)
    bogons_check := fun _ => false
    hostiles_check := fun _ => false
    host_is_nearby := fun _ => false }

/-- The empty host cache state. -/
def emptyHS : HS :=
  { lists := fun _ => []
    htab := fun _ _ => none
    hits := fun _ => 0
    misses := fun _ => 0
    dirty := fun _ => false
    massUpdate := fun _ => 0
    props := fun _ => 0
    low_on_pongs := false
    statLocal := 0
    statConnected := 0
    statInvalid := 0 }

/-- An environment whose bad-host caches hold at most one host. -/
def envB : HEnv :=
  { envA with max_bad_hosts_cached := 1 }

def hostB1 : Host := { addr := 1, port := 1000 }
def hostB2 : Host := { addr := 2, port := 1000 }

/-- A state whose BUSY cache is over its configured capacity (reachable by
lowering max_bad_hosts_cached at runtime after two admissions). -/
def sB : HS :=
  { emptyHS with
    lists := fun t => if t = .busy then [hostB1, hostB2] else []
    htab := fun c h =>
      if c = .host ∧ (h = hostB1 ∨ h = hostB2) then
        some { hty := .busy, time_added := 0 }
      else none }

/-- A search-queue environment used by the witnesses: ultrapeer mode, three
configured ultrapeer connections of which one is connected. -/
def envS0 : SEnv :=
  { search_queue_spacing := 1
    search_queue_size := 10
    current_peermode := .ultra
    up_connections := 3
    node_connected := 1
    search_query_allowed := fun _ => true }

/-- A one-entry search queue for the witnesses. -/
def sqS0 : SQueue :=
  { node := none
    searches := [{ shandle := 5, mb := 9, qhv := none }]
    handles := [5]
    count := 1
    n_sent := 0
    n_dropped := 0
    last_sent := 0 }

/-- A global-queue entry with a query hash vector. -/
def sbC6 : SMsg := { shandle := 1, mb := 7, qhv := some 3 }

/-- A global search queue holding sbC6. -/
def sqC6 : SQueue :=
  { node := none
    searches := [sbC6]
    handles := [1]
    count := 1
    n_sent := 0
    n_dropped := 0
    last_sent := 0 }

/-- A concrete non-daemon task for the witnesses. -/
def btW : BgTask :=
  { daemon := false
    exited := false
    signalFlag := false
    running := false
    zombie := false
    notick := false
    sleeping := false
    runnable := true
    step := 0
    seqno := 2
    stepcnt := 3
    exitcode := 0
    tick_cost := 1
    ticks := 1
    ticks_used := 1
    prev_ticks := 1
    elapsed := 0
    wtime := 0
    hasDoneCb := true
    wq := [] }

/-- The search-queue environment of the C7 witness: capacity two. -/
def envW7 : SEnv := { envS0 with search_queue_size := 2 }

/-- A two-entry queue for the C7 witness. -/
def sqW7 : SQueue :=
  { node := none
    searches := [{ shandle := 2, mb := 12, qhv := none }, { shandle := 1, mb := 11, qhv := none }]
    handles := [2, 1]
    count := 2
    n_sent := 0
    n_dropped := 0
    last_sent := 0 }

/-- The host of the C3 witness. -/
def hostG : Host := { addr := 9, port := 4000 }

/-- A state holding hostG in the GUESS cache, with its table entry. -/
def sG : HS :=
  { emptyHS with
    lists := fun t => if t = .guess then [hostG] else []
    htab := fun c k =>
      if c = .guessC ∧ k = hostG then some { hty := .guess, time_added := 50 } else none }

/-- Whether the class-Host table records host h with cache type t. -/
def tabHasType (s : HS) (t : HType) (h : Host) : Bool :=
  match s.htab .host h with
  | some e => e.hty = t
  | none => false

/-- Every host of cache t is recorded in the class-Host table with type t
(the P1 invariant of the specification, for one cache). -/
def tabConsistent (s : HS) (t : HType) : Prop :=
  ∀ h ∈ s.lists t, tabHasType s t h = true

/-- The recorded insertion time of a host (0 without metadata). -/
def addedTimeOf (s : HS) (h : Host) : Int :=
  match s.htab .host h with
  | some e => e.time_added
  | none => 0

/-- The cache list is sorted by descending insertion time, the property
hcache_expire_cache relies on. -/
def sortedByAdded (s : HS) (t : HType) : Prop :=
  (s.lists t).Pairwise (fun a b => addedTimeOf s b ≤ addedTimeOf s a)

instance (s : HS) (t : HType) : Decidable (tabConsistent s t) := by
  unfold tabConsistent
  infer_instance

instance (s : HS) (t : HType) : Decidable (sortedByAdded s t) := by
  unfold sortedByAdded
  infer_instance

/-- Hosts of the C5 witness. -/
def hostE1 : Host := { addr := 1, port := 0 }

def hostE2 : Host := { addr := 2, port := 0 }

/-- A TIMEOUT cache with a fresh entry at the head and an expired one at
the tail. -/
def sE : HS :=
  { emptyHS with
    lists := fun t => if t = .timeout then [hostE1, hostE2] else []
    htab := fun c k =>
      if c = .host ∧ k = hostE1 then some { hty := .timeout, time_added := 4000 }
      else if c = .host ∧ k = hostE2 then some { hty := .timeout, time_added := 100 }
      else none }

/-- The host of the C4 witness. -/
def hostV : Host := { addr := 7, port := 2222 }

/-- A state with an empty FRESH_ANY cache and one host in VALID_ANY, so
that hcache_get_caught must splice. -/
def sV : HS :=
  { emptyHS with
    lists := fun t => if t = .validAny then [hostV] else []
    htab := fun c kk =>
      if c = .host ∧ kk = hostV then some { hty := .validAny, time_added := 10 }
      else none }

/-- The slot filter as the specification states it, over mathematical
integers: accept exactly when limit > 0 and left > 0 and (left > limit/2
or the draw modulo limit is below left). -/
def spec_request_slot (env : HEnv) (s : HS) (t : HType) (r : Nat) : Bool :=
  let limit : Int := hcache_slots_max env t
  let left : Int := hcache_slots_left env s t
  decide (0 < limit) &&
    (decide (0 < left) &&
      (decide (limit / 2 < left) || decide (((r % U32 : Nat) : Int) % limit < left)))

/-
  Theorems.
-/

/-- C1: hcache_add_internal returns TRUE exactly when the admission sanity
checks pass (stop_host_get unset; UNSTABLE gating satisfied; not this
node's own address and port; for the four good caches not already
connected; address routable or address-only cache with a valid port; not
bogus or hostile; port heuristic passed).  In particular it returns TRUE on
every duplicate-host path and also when the probability-gated slot filter
rejects the host without storing it, and FALSE exactly when one of the
sanity checks rejects. -/
theorem hcache_add_returns_sanity (env : HEnv) (s : HS) (t : HType) (added : Int)
    (h : Host) (rnd : List Nat) :
    (hcache_add_internal env s t added h rnd).1 = hcache_sanity_ok env s t h rnd := by
  cases h1 : chkStop env
  case true => simp [hcache_add_internal, hcache_sanity_ok, h1]
  case false =>
  cases h2 : chkUnstable env s t
  case true => simp [hcache_add_internal, hcache_sanity_ok, h1, h2]
  case false =>
  cases h3 : chkMyAddr env h
  case true => simp [hcache_add_internal, hcache_sanity_ok, h1, h2, h3]
  case false =>
  cases h4 : chkConnected env t h
  case true => simp [hcache_add_internal, hcache_sanity_ok, h1, h2, h3, h4]
  case false =>
  cases h5 : chkUnroutable env t h
  case true => simp [hcache_add_internal, hcache_sanity_ok, h1, h2, h3, h4, h5]
  case false =>
  cases h6 : chkBogus env h
  case true => simp [hcache_add_internal, hcache_sanity_ok, h1, h2, h3, h4, h5, h6]
  case false =>
  cases h7 : chkPortReject s h (rdraw rnd)
  case true => simp [hcache_add_internal, hcache_sanity_ok, h1, h2, h3, h4, h5, h6, h7]
  case false =>
  simp only [hcache_add_internal, hcache_sanity_ok, h1, h2, h3, h4, h5, h6, h7,
    Bool.not_false, Bool.true_and, Bool.and_true, if_false, Bool.false_eq_true, if_neg,
    ite_false]
  cases hm : s.htab (hcacheClass t) h <;>
    simp only [Bool.not_true, Bool.not_false] <;>
    (repeat' split) <;> rfl

/-- C2 failing input: on a BUSY cache holding two hosts against a limit of
one, hcache_slots_left is negative, yet hcache_request_slot accepts for
every random draw — the C assigns the negative int to a guint, so left
wraps to 2^32 - 1 and passes both the left > 0 and the left > limit/2
tests — while the slot filter as specified (computed over mathematical
integers) rejects every draw. -/
theorem hcache_request_slot_overfull_accepts :
    hcache_slots_left envB sB .busy < 0 ∧
    (∀ r : Nat, hcache_request_slot envB sB .busy r = true) ∧
    (∀ r : Nat, spec_request_slot envB sB .busy r = false) := by
  refine ⟨by decide, fun r => ?_, fun r => ?_⟩ <;> rfl

/-- C6 counterexample: with 3 configured ultrapeer connections and only 1
connected — fewer than (2/3)·up_connections = 2, so the claim demands that
nothing be dispatched — the global queue still dispatches its entry and
counts it as sent: the code's gate is node_keep_missing·3 > 2·up_connections,
which only blocks below one third. -/
theorem sq_global_two_thirds_refuted :
    envS0.node_connected * 3 < 2 * envS0.up_connections ∧
    (sq_process envS0 sqC6 5).2 = [sbC6] ∧
    (sq_process envS0 sqC6 5).1.n_sent = 1 := by
  refine ⟨by decide, ?_, ?_⟩ <;> rfl

/-- C6 (amended): for the global search queue (node binding NULL),
sq_process dispatches no message — and leaves the queue untouched — when
the queue is empty, or the spacing delay has not elapsed, or the node is
not an ultrapeer, or the missing ultrapeer connections exceed two thirds of
up_connections (node_keep_missing·3 > 2·up_connections, i.e. fewer than one
third of up_connections connected), the code's actual gate. -/
theorem sq_global_process_gates (env : SEnv) (sq : SQueue) (now : Int)
    (hg : sq.node = none)
    (hblock : sq.count = 0 ∨ now - sq.last_sent < env.search_queue_spacing ∨
      env.current_peermode ≠ .ultra ∨
      2 * env.up_connections < node_keep_missing env * 3) :
    sq_process env sq now = (sq, []) := by
  simp only [sq_process, sq_process_loop, hg]
  rcases hblock with h | h | h | h
  · simp [h]
  · by_cases h0 : sq.count = 0 <;> simp [h0, h]
  · by_cases h0 : sq.count = 0
    · simp [h0]
    · by_cases h1 : now - sq.last_sent < env.search_queue_spacing <;> simp [h0, h1, h]
  · by_cases h0 : sq.count = 0
    · simp [h0]
    · by_cases h1 : now - sq.last_sent < env.search_queue_spacing
      · simp [h0, h1]
      · by_cases h2 : env.current_peermode = PeerMode.ultra <;> simp [h0, h1, h2, h]

/-- C6 witness: the amended gate theorem applied to a concrete global queue
blocked by the spacing delay. -/
theorem sq_global_process_gates_witness :
    sqC6.node = none ∧
    ((0:Int) - sqC6.last_sent < envS0.search_queue_spacing) ∧
    sq_process envS0 sqC6 0 = (sqC6, []) :=
  ⟨rfl, by decide, sq_global_process_gates envS0 sqC6 0 rfl (Or.inr (Or.inl (by decide)))⟩

/-- C8: at every activation, with target = max(40 ms, 150 ms /
runnable_count) in microseconds: a zero tick cost grants exactly 1 tick;
otherwise the base grant is 1 + target / tick_cost; with prev_ticks > 0 the
grant never exceeds DELTA_FACTOR × prev_ticks and never falls below
prev_ticks / DELTA_FACTOR (it is replaced by prev_ticks / 4 when 4 × ticks
< prev_ticks); and the granted tick count is always at least 1. -/
theorem bg_ticks_budget (rc : Nat) (cost : Rat) (prev : Int)
    (hrc : 0 < rc) (hcost : 0 ≤ cost) (hprev : 0 ≤ prev) :
    (cost = 0 → bg_sched_ticks rc cost prev = 1) ∧
    (cost ≠ 0 → prev = 0 →
      bg_sched_ticks rc cost prev = 1 + ⌊(bg_target rc : Rat) / cost⌋) ∧
    (cost ≠ 0 → 0 < prev →
      bg_sched_ticks rc cost prev ≤ DELTA_FACTOR * prev ∧
      Int.tdiv prev DELTA_FACTOR ≤ bg_sched_ticks rc cost prev) ∧
    1 ≤ bg_sched_ticks rc cost prev := by
  by_cases hc : cost = 0
  · have hval : bg_sched_ticks rc cost prev = 1 := by
      simp [bg_sched_ticks, bg_ticks_granted, hc]
    exact ⟨fun _ => hval, fun hc' => absurd hc hc', fun hc' => absurd hc hc',
      le_of_eq hval.symm⟩
  · have hcpos : 0 < cost := lt_of_le_of_ne hcost (Ne.symm hc)
    have hq0 : (0:Rat) ≤ (bg_target rc : Rat) / cost := div_nonneg (by positivity) hcost
    have h1q : (0:Rat) ≤ 1 + (bg_target rc : Rat) / cost := by linarith
    have htr : ratTrunc (1 + (bg_target rc : Rat) / cost)
        = 1 + ⌊(bg_target rc : Rat) / cost⌋ := by
      rw [ratTrunc, if_pos h1q, add_comm (1 : Rat), Int.floor_add_one, add_comm]
    have hbase1 : 1 ≤ 1 + ⌊(bg_target rc : Rat) / cost⌋ := by
      have := Int.floor_nonneg.mpr hq0
      omega
    by_cases hp : prev = 0
    · have hval : bg_sched_ticks rc cost prev = 1 + ⌊(bg_target rc : Rat) / cost⌋ := by
        simp [bg_sched_ticks, bg_ticks_granted, hc, hp, htr]
      refine ⟨fun h0 => absurd h0 hc, fun _ _ => hval, fun _ hpp => absurd hp (by omega), ?_⟩
      rw [hval]; exact hbase1
    · have hval : bg_sched_ticks rc cost prev =
          (if prev * DELTA_FACTOR < 1 + ⌊(bg_target rc : Rat) / cost⌋ then prev * DELTA_FACTOR
           else if DELTA_FACTOR * (1 + ⌊(bg_target rc : Rat) / cost⌋) < prev then
             Int.tdiv prev DELTA_FACTOR
           else 1 + ⌊(bg_target rc : Rat) / cost⌋) := by
        simp [bg_sched_ticks, bg_ticks_granted, hc, hp, htr]
      have hdf : DELTA_FACTOR = 4 := rfl
      set b := 1 + ⌊(bg_target rc : Rat) / cost⌋ with hbdef
      have htd : Int.tdiv prev 4 = prev / 4 := Int.tdiv_eq_ediv hprev (by norm_num)
      by_cases hA : prev * DELTA_FACTOR < b
      · have hv : bg_sched_ticks rc cost prev = prev * DELTA_FACTOR := by rw [hval, if_pos hA]
        refine ⟨fun h0 => absurd h0 hc, fun _ h0 => absurd h0 hp, fun _ _ => ⟨?_, ?_⟩, ?_⟩
        · rw [hv, hdf]; omega
        · rw [hv, hdf, htd]
          have h1 : prev / 4 ≤ prev := Int.ediv_le_self 4 hprev
          omega
        · rw [hv, hdf]
          have hppos : 0 < prev := lt_of_le_of_ne hprev (Ne.symm hp)
          omega
      · by_cases hB : DELTA_FACTOR * b < prev
        · have hv : bg_sched_ticks rc cost prev = Int.tdiv prev DELTA_FACTOR := by
            rw [hval, if_neg hA, if_pos hB]
          have hp5 : (5:Int) ≤ prev := by rw [hdf] at hB; omega
          have hge1 : 1 ≤ prev / 4 := by
            have := Int.ediv_le_ediv (by norm_num : (0:Int) < 4) hp5
            simpa using this
          refine ⟨fun h0 => absurd h0 hc, fun _ h0 => absurd h0 hp, fun _ _ => ⟨?_, ?_⟩, ?_⟩
          · rw [hv, hdf, htd]
            have h1 : prev / 4 ≤ prev := Int.ediv_le_self 4 hprev
            omega
          · rw [hv]
          · rw [hv, hdf, htd]; omega
        · have hv : bg_sched_ticks rc cost prev = b := by rw [hval, if_neg hA, if_neg hB]
          have hub : b ≤ DELTA_FACTOR * prev := by rw [hdf]; rw [hdf] at hA; omega
          have hlb : Int.tdiv prev DELTA_FACTOR ≤ b := by
            rw [hdf, htd]
            rw [hdf] at hB
            have h4 : prev ≤ 4 * b := by omega
            have := Int.ediv_le_ediv (by norm_num : (0:Int) < 4) h4
            have hc4 : (4:Int) * b / 4 = b := Int.mul_ediv_cancel_left b (by norm_num)
            omega
          exact ⟨fun h0 => absurd h0 hc, fun _ h0 => absurd h0 hp,
            fun _ _ => ⟨hv ▸ hub, hv ▸ hlb⟩, hv ▸ hbase1⟩

/-- C8 witness: the budget theorem at runnable_count 2, tick cost 3/2,
previous grant 8. -/
theorem bg_ticks_budget_witness :
    0 < 2 ∧ (0:Rat) ≤ 3/2 ∧ (0:Int) ≤ 8 ∧
    (((3:Rat)/2 = 0 → bg_sched_ticks 2 (3/2) 8 = 1) ∧
     ((3:Rat)/2 ≠ 0 → (8:Int) = 0 →
       bg_sched_ticks 2 (3/2) 8 = 1 + ⌊(bg_target 2 : Rat) / (3/2)⌋) ∧
     ((3:Rat)/2 ≠ 0 → (0:Int) < 8 →
       bg_sched_ticks 2 (3/2) 8 ≤ DELTA_FACTOR * 8 ∧
       Int.tdiv 8 DELTA_FACTOR ≤ bg_sched_ticks 2 (3/2) 8) ∧
     1 ≤ bg_sched_ticks 2 (3/2) 8) :=
  ⟨by norm_num, by norm_num, by norm_num,
    bg_ticks_budget 2 (3/2) 8 (by norm_num) (by norm_num) (by norm_num)⟩

/-- C9: for a non-daemon task, MORE increments seqno and changes nothing
else; NEXT on a non-final step increments the step index and resets seqno
and tick_cost; NEXT on the last step ends the task; ERROR sets exit_code to
-1 and terminates the task, whose status is then ERROR — and KILLED instead
when the SIGNAL flag is set, per the status rule (KILLED on SIGNAL, ERROR
on non-zero exit code, OK otherwise). -/
theorem bg_step_return_interpretation (bt : BgTask)
    (hd : bt.daemon = false) :
    (bg_sched_interpret bt .more = ({ bt with seqno := bt.seqno + 1 }, none)) ∧
    (bt.step ≠ bt.stepcnt - 1 →
      bg_sched_interpret bt .next =
        ({ bt with seqno := 0, step := bt.step + 1, tick_cost := 0 }, none)) ∧
    (bt.step = bt.stepcnt - 1 →
      (bg_sched_interpret bt .next).1.exited = true ∧
      (bg_sched_interpret bt .next).2 = some (bg_status_of bt)) ∧
    ((bg_sched_interpret bt .error).1.exitcode = -1 ∧
      (bg_sched_interpret bt .error).1.exited = true ∧
      (bt.signalFlag = false → (bg_sched_interpret bt .error).2 = some .error) ∧
      (bt.signalFlag = true → (bg_sched_interpret bt .error).2 = some .killed)) := by
  refine ⟨rfl, ?_, ?_, ?_⟩
  · intro h
    simp [bg_sched_interpret, h]
  · intro h
    simp only [bg_sched_interpret, if_pos h, bg_task_ended, hd, Bool.not_false, if_pos,
      bg_task_terminate, bg_status_of, ite_true]
    split_ifs <;> simp_all
  · simp only [bg_sched_interpret, bg_task_ended, hd, Bool.not_false, if_pos,
      bg_task_terminate, bg_status_of, ite_true]
    split_ifs <;> simp_all

/-- C9 witness: the interpretation theorem at a concrete non-daemon task. -/
theorem bg_step_return_interpretation_witness :
    btW.daemon = false ∧
    bg_sched_interpret btW .more = ({ btW with seqno := btW.seqno + 1 }, none) ∧
    (bg_sched_interpret btW .error).1.exitcode = -1 :=
  ⟨rfl, (bg_step_return_interpretation btW rfl).1,
    (bg_step_return_interpretation btW rfl).2.2.2.1⟩

/-- C10: sq_clear discards every queued entry and resets the count to zero
but leaves the handles table untouched (sq_set_peermode away from ultrapeer
mode performs exactly this clear); consequently a handle queued before the
clear silently drops any later enqueue, although the queue holds no entry
for it — only the direction "queued entry implies handle recorded" is
preserved, not its converse. -/
theorem sq_clear_keeps_handles (env : SEnv) (sq : SQueue) :
    (sq_clear sq).searches = [] ∧
    (sq_clear sq).count = 0 ∧
    (sq_clear sq).handles = sq.handles ∧
    (∀ mode, mode ≠ PeerMode.ultra → sq_set_peermode mode sq = sq_clear sq) ∧
    (∀ sh mb qhv, sq.handles.contains sh = true →
      sq_puthere env (sq_clear sq) sh mb qhv = sq_clear sq) := by
  refine ⟨rfl, rfl, rfl, ?_, ?_⟩
  · intro mode hm
    simp [sq_set_peermode, hm]
  · intro sh mb qhv hmem
    have hmem' : sh ∈ sq.handles := by simpa using hmem
    simp [sq_puthere, sqh_exists, sq_clear, hmem']

/-- C10 witness: the stale handle 5 of a cleared queue silently drops a new
enqueue. -/
theorem sq_clear_keeps_handles_witness :
    sqS0.handles.contains 5 = true ∧
    sq_puthere envS0 (sq_clear sqS0) 5 9 none = sq_clear sqS0 :=
  ⟨by decide, (sq_clear_keeps_handles envS0 sqS0).2.2.2.2 5 9 none (by decide)⟩


/-- The drop loop of cap_queue with fuel at least the excess: the newest
search_queue_size entries survive, the count is clamped to the capacity,
and each drop increments n_dropped. -/
theorem cap_queue_loop_spec (env : SEnv) :
    ∀ (fuel : Nat) (sq : SQueue),
      sq.count = sq.searches.length →
      sq.count ≤ env.search_queue_size + fuel →
      (cap_queue_loop env sq fuel).searches = sq.searches.take env.search_queue_size ∧
      (cap_queue_loop env sq fuel).count = min sq.count env.search_queue_size ∧
      (cap_queue_loop env sq fuel).n_dropped
        = sq.n_dropped + (sq.count - env.search_queue_size) := by
  intro fuel
  induction fuel with
  | zero =>
    intro sq hlen hle
    simp only [cap_queue_loop]
    refine ⟨(List.take_of_length_le (by omega)).symm, by omega, by omega⟩
  | succ n ih =>
    intro sq hlen hle
    by_cases hover : env.search_queue_size < sq.count
    · have hne : sq.searches ≠ [] := by
        intro he
        rw [he] at hlen
        simp at hlen
        omega
      obtain ⟨sb, hsb⟩ : ∃ sb, sq.searches.getLast? = some sb := by
        cases hl : sq.searches.getLast? with
        | none => exact absurd (List.getLast?_eq_none_iff.mp hl) hne
        | some sb => exact ⟨sb, rfl⟩
      simp only [cap_queue_loop, if_pos hover, hsb]
      set sq' : SQueue :=
        { sq with
          searches := sq.searches.dropLast
          count := sq.count - 1
          n_dropped := sq.n_dropped + 1
          handles := sq.handles.erase sb.shandle } with hsq'
      have hlen' : sq'.count = sq'.searches.length := by
        simp [hsq', List.length_dropLast]
        omega
      have hle' : sq'.count ≤ env.search_queue_size + n := by simp [hsq']; omega
      obtain ⟨e1, e2, e3⟩ := ih sq' hlen' hle'
      refine ⟨?_, ?_, ?_⟩
      · rw [e1]
        simp only [hsq']
        rw [List.dropLast_eq_take, List.take_take]
        congr 1
        omega
      · rw [e2]; simp [hsq']; omega
      · rw [e3]; simp [hsq']; omega
    · simp only [cap_queue_loop, if_neg hover]
      refine ⟨(List.take_of_length_le (by omega)).symm, by omega, by omega⟩

/-- The drop loop never discards the head entry's handle while the
capacity is positive: only tail entries are dropped. -/
theorem cap_queue_loop_keeps (env : SEnv) (x : Nat) :
    ∀ (fuel : Nat) (sq : SQueue) (a : SMsg) (t : List SMsg),
      0 < env.search_queue_size →
      sq.searches = a :: t →
      sq.count = sq.searches.length →
      x ∈ sq.handles →
      (∀ sb ∈ t, sb.shandle ≠ x) →
      x ∈ (cap_queue_loop env sq fuel).handles := by
  intro fuel
  induction fuel with
  | zero =>
    intro sq a t hs hsh hlen hx hta
    simpa [cap_queue_loop] using hx
  | succ n ih =>
    intro sq a t hs hsh hlen hx hta
    by_cases hover : env.search_queue_size < sq.count
    · have htne : t ≠ [] := by
        intro he
        rw [hsh, he] at hlen
        simp at hlen
        omega
      have hgl : sq.searches.getLast? = t.getLast? := by
        rw [hsh]
        cases t with
        | nil => exact absurd rfl htne
        | cons b t' => simp [List.getLast?_cons_cons]
      obtain ⟨sb, hsb⟩ : ∃ sb, t.getLast? = some sb := by
        cases hl : t.getLast? with
        | none => exact absurd (List.getLast?_eq_none_iff.mp hl) htne
        | some sb => exact ⟨sb, rfl⟩
      have hsbt : sb ∈ t := List.mem_of_mem_getLast? hsb
      have hsbx : sb.shandle ≠ x := hta sb hsbt
      have hql : sq.searches.getLast? = some sb := by rw [hgl, hsb]
      simp only [cap_queue_loop, if_pos hover, hql]
      apply ih _ a t.dropLast hs
      · simp [hsh, List.dropLast_cons_of_ne_nil htne]
      · simp [hsh, List.dropLast_cons_of_ne_nil htne, List.length_dropLast]
        rw [hsh] at hlen
        simp at hlen
        have : 1 ≤ t.length := by
          cases t with
          | nil => exact absurd rfl htne
          | cons _ _ => simp
        omega
      · exact (List.mem_erase_of_ne (Ne.symm hsbx)).mpr hx
      · intro sb' hsb'
        exact hta sb' ((t.dropLast_sublist).subset hsb')
    · simp only [cap_queue_loop, if_neg hover]
      exact hx

/-- C7: enqueue postcondition.  If the handle is already queued, the
operation leaves queue, handles-set and all counters unchanged; otherwise
the new entry is prepended (head = newest), the count grows by one, the
handle joins the handles-set, and tail entries are dropped — incrementing
n_dropped for each — until count is at most search_queue_size, which
therefore holds after every enqueue. -/
theorem sq_puthere_spec (env : SEnv) (sq : SQueue) (sh mb : Nat) (qhv : Option Nat)
    (hinv : sq.count = sq.searches.length)
    (hh : ∀ sb ∈ sq.searches, sb.shandle ∈ sq.handles) :
    (sqh_exists sq sh = true → sq_puthere env sq sh mb qhv = sq) ∧
    (sqh_exists sq sh = false →
      ((sq_puthere env sq sh mb qhv).searches
        = (({ shandle := sh, mb := mb, qhv := qhv } : SMsg) :: sq.searches).take
            env.search_queue_size ∧
       (sq_puthere env sq sh mb qhv).count = min (sq.count + 1) env.search_queue_size ∧
       (sq_puthere env sq sh mb qhv).n_dropped
        = sq.n_dropped + (sq.count + 1 - env.search_queue_size) ∧
       (0 < env.search_queue_size → sh ∈ (sq_puthere env sq sh mb qhv).handles) ∧
       (sq_puthere env sq sh mb qhv).count ≤ env.search_queue_size)) := by
  constructor
  · intro hex
    simp [sq_puthere, hex]
  · intro hex
    have hns : sh ∉ sq.handles := by
      intro hmem
      simp [sqh_exists, hmem] at hex
    set nb : SMsg := { shandle := sh, mb := mb, qhv := qhv } with hnb
    set sq1 : SQueue := ({ sq with handles := sh :: sq.handles, searches := nb :: sq.searches, count := sq.count + 1 } : SQueue) with hsq1
    have hsq1len : sq1.count = sq1.searches.length := by simp [hsq1, hinv]
    have hval : sq_puthere env sq sh mb qhv =
        (if env.search_queue_size < sq1.count then cap_queue env sq1 else sq1) := by
      simp only [sq_puthere, hex, Bool.false_eq_true, if_neg, ite_false, hsq1, hnb]
    by_cases hover : env.search_queue_size < sq1.count
    · rw [hval, if_pos hover]
      have hle : sq1.count ≤ env.search_queue_size + sq1.count := by omega
      obtain ⟨e1, e2, e3⟩ := cap_queue_loop_spec env sq1.count sq1 hsq1len hle
      have hcq : cap_queue env sq1 = cap_queue_loop env sq1 sq1.count := rfl
      have hc1 : sq1.count = sq.count + 1 := rfl
      have hs1 : sq1.searches = nb :: sq.searches := rfl
      have hd1 : sq1.n_dropped = sq.n_dropped := rfl
      rw [hcq]
      refine ⟨?_, ?_, ?_, ?_, ?_⟩
      · rw [e1, hs1]
      · rw [e2, hc1]
      · rw [e3, hc1, hd1]
      · intro hpos
        exact cap_queue_loop_keeps env sh sq1.count sq1 nb sq.searches hpos rfl hsq1len
          (by rw [show sq1.handles = sh :: sq.handles from rfl]; exact List.mem_cons_self _ _)
          (fun sb hsb heq => hns (heq ▸ hh sb hsb))
      · rw [e2]; omega
    · rw [hval, if_neg hover]
      have hc1 : sq1.count = sq.count + 1 := rfl
      refine ⟨?_, ?_, ?_, ?_, ?_⟩
      · rw [show sq1.searches = nb :: sq.searches from rfl]
        refine (List.take_of_length_le ?_).symm
        have hln : (nb :: sq.searches).length = sq.count + 1 := by simp [hinv]
        rw [hln]
        omega
      · rw [hc1]
        have : sq.count + 1 <= env.search_queue_size := by omega
        omega
      · rw [show sq1.n_dropped = sq.n_dropped from rfl]
        have : sq.count + 1 <= env.search_queue_size := by omega
        omega
      · intro _
        rw [show sq1.handles = sh :: sq.handles from rfl]
        exact List.mem_cons_self _ _
      · rw [hc1]; omega


/-- C7 witness: inserting a third search into a two-entry queue of capacity
two drops the oldest entry. -/
theorem sq_puthere_spec_witness :
    sqW7.count = sqW7.searches.length ∧
    (∀ sb ∈ sqW7.searches, sb.shandle ∈ sqW7.handles) ∧
    sqh_exists sqW7 3 = false ∧
    ((sq_puthere envW7 sqW7 3 13 none).searches
       = (({ shandle := 3, mb := 13, qhv := none } : SMsg) :: sqW7.searches).take
           envW7.search_queue_size ∧
     (sq_puthere envW7 sqW7 3 13 none).count = min (sqW7.count + 1) envW7.search_queue_size ∧
     (sq_puthere envW7 sqW7 3 13 none).n_dropped
       = sqW7.n_dropped + (sqW7.count + 1 - envW7.search_queue_size) ∧
     (0 < envW7.search_queue_size → 3 ∈ (sq_puthere envW7 sqW7 3 13 none).handles) ∧
     (sq_puthere envW7 sqW7 3 13 none).count ≤ envW7.search_queue_size) :=
  ⟨by decide, by decide, by decide,
    (sq_puthere_spec envW7 sqW7 3 13 none (by decide) (by decide)).2 (by decide)⟩


/-- Every cache type of class Guess is GUESS or GUESS_INTRO. -/
theorem class_guess_cases (t : HType) (hc : hcacheClass t = .guessC) :
    t = .guess ∨ t = .guessIntro := by
  cases t <;> simp_all [hcacheClass]

/-- hcache_require_caught leaves the state alone on every cache type other
than the four good ones. -/
theorem require_caught_keeps (s : HS) (t : HType)
    (ht : t = .timeout ∨ t = .busy ∨ t = .unstable ∨ t = .alien ∨ t = .guess ∨ t = .guessIntro) :
    (hcache_require_caught s t).2 = s := by
  rcases ht with h|h|h|h|h|h <;> subst h <;> rfl

/-- Unlinking a host from a Guess-class cache erases it from that cache's
list and drops its table entry, touching no other list. -/
theorem unlink_guess_fields (s : HS) (t : HType) (h : Host) (e : HEntry)
    (hc : hcacheClass t = .guessC) (he : s.htab .guessC h = some e) :
    (∀ u, (hcache_unlink_host s t h).lists u
      = if u = t then (s.lists t).erase h else s.lists u) ∧
    (∀ c k, (hcache_unlink_host s t h).htab c k
      = if c = HClass.guessC ∧ k = h then none else s.htab c k) := by
  obtain hg | hg := class_guess_cases t hc <;> subst hg <;>
  · simp only [hcache_unlink_host, setList, propSet, setDirty, hcache_ht_remove, setTab,
      hcacheClass]
    split_ifs <;>
    · simp only [he]
      constructor
      · intro u
        simp [hcache_require_caught]
      · intro c k
        simp [hcache_require_caught]

/-- C3: a hcache_add with target GUESS or GUESS_INTRO of a host already in
the Guess class table passes the sanity checks, removes the existing entry
from its current cache and from the class table, returns TRUE, and stores
nothing anywhere (ID-smearing); hence inserting the same host into GUESS
twice in a row leaves the host out of GUESS. -/
theorem hcache_guess_dup_removes (env : HEnv) (s : HS) (t : HType) (added : Int)
    (h : Host) (rnd : List Nat) (e : HEntry)
    (ht : t = HType.guess ∨ t = HType.guessIntro)
    (hsan : hcache_sanity_ok env s t h rnd = true)
    (he : s.htab .guessC h = some e)
    (hcls : hcacheClass e.hty = .guessC)
    (hnd : (s.lists e.hty).Nodup) :
    (hcache_add_internal env s t added h rnd).1 = true ∧
    h ∉ (hcache_add_internal env s t added h rnd).2.lists e.hty ∧
    (hcache_add_internal env s t added h rnd).2.htab .guessC h = none ∧
    (∀ u, u ≠ e.hty → (hcache_add_internal env s t added h rnd).2.lists u = s.lists u) := by
  obtain ⟨⟨⟨⟨⟨⟨h1, h2⟩, h3⟩, h4⟩, h5⟩, h6⟩, h7⟩ :
      (((((chkStop env = false ∧ chkUnstable env s t = false) ∧ chkMyAddr env h = false) ∧
      chkConnected env t h = false) ∧ chkUnroutable env t h = false) ∧
      chkBogus env h = false) ∧ chkPortReject s h (rdraw rnd) = false := by
    simpa [hcache_sanity_ok] using hsan
  have hb : (bumpHits s t).htab = s.htab := rfl
  have hbl : (bumpHits s t).lists = s.lists := rfl
  have hval : hcache_add_internal env s t added h rnd
      = (true, hcache_unlink_host (bumpHits s t) e.hty h) := by
    rcases ht with htg | htg <;> subst htg <;>
      simp [hcache_add_internal, h1, h2, h3, h4, h5, h6, h7, he, hcacheClass,
        isBadCacheType]
  obtain ⟨hl, hm⟩ := unlink_guess_fields (bumpHits s t) e.hty h e hcls (by rw [hb]; exact he)
  rw [hval]
  refine ⟨rfl, ?_, ?_, ?_⟩
  · have := hl e.hty
    simp only [if_pos rfl, hbl] at this
    rw [this]
    exact List.Nodup.not_mem_erase hnd
  · have := hm .guessC h
    simpa using this
  · intro u hu
    have := hl u
    rw [if_neg hu, hbl] at this
    exact this

/-- C3 witness: hostG sits in GUESS; adding it to GUESS again returns TRUE
and removes it from GUESS and from the class table. -/
theorem hcache_guess_dup_removes_witness :
    hcache_sanity_ok envA sG .guess hostG [] = true ∧
    sG.htab .guessC hostG = some { hty := HType.guess, time_added := 50 } ∧
    hcacheClass HType.guess = HClass.guessC ∧
    (sG.lists HType.guess).Nodup ∧
    ((hcache_add_internal envA sG .guess 60 hostG []).1 = true ∧
     hostG ∉ (hcache_add_internal envA sG .guess 60 hostG []).2.lists HType.guess ∧
     (hcache_add_internal envA sG .guess 60 hostG []).2.htab .guessC hostG = none ∧
     (∀ u, u ≠ HType.guess →
       (hcache_add_internal envA sG .guess 60 hostG []).2.lists u = sG.lists u)) :=
  ⟨by decide, by decide, by decide, by decide,
    hcache_guess_dup_removes envA sG .guess 60 hostG [] { hty := .guess, time_added := 50 }
      (Or.inl rfl) (by decide) (by decide) (by decide) (by decide)⟩


/-- Erasing the last element of a duplicate-free list drops exactly the
tail. -/
theorem erase_getLast_of_nodup : ∀ (l : List Host) (h : Host),
    l.getLast? = some h → l.Nodup → l.erase h = l.dropLast ∧ h ∉ l.dropLast := by
  intro l
  induction l with
  | nil => intro h hg _; simp at hg
  | cons a tl ih =>
    intro h hg hnd
    cases tl with
    | nil =>
      simp at hg
      subst hg
      simp
    | cons b tl' =>
      have hg' : (b :: tl').getLast? = some h := by
        simpa [List.getLast?_cons_cons] using hg
      have hnd' : (b :: tl').Nodup := hnd.of_cons
      obtain ⟨e1, e2⟩ := ih h hg' hnd'
      have hmem : h ∈ b :: tl' := List.mem_of_mem_getLast? hg'
      have hane : a ≠ h := by
        intro he
        subst he
        exact (List.nodup_cons.mp hnd).1 hmem
      have hdl : (a :: b :: tl').dropLast = a :: (b :: tl').dropLast :=
        List.dropLast_cons_of_ne_nil (by simp)
      constructor
      · rw [List.erase_cons_tail, e1, hdl]
        simp [hane]
      · rw [hdl]
        simp only [List.mem_cons, not_or]
        exact ⟨fun he => hane he.symm, e2⟩

/-- In a pairwise-related list, every element relates to the last one. -/
theorem pairwise_rel_getLast {α : Type} {R : α → α → Prop} :
    ∀ (l : List α) (b : α), l.Pairwise R → l.getLast? = some b →
      ∀ a ∈ l, a = b ∨ R a b := by
  intro l
  induction l with
  | nil => intro b _ hg; simp at hg
  | cons x tl ih =>
    intro b hp hg a ha
    cases tl with
    | nil =>
      simp at hg ha
      subst hg
      subst ha
      exact Or.inl rfl
    | cons y tl' =>
      have hg' : (y :: tl').getLast? = some b := by
        simpa [List.getLast?_cons_cons] using hg
      rcases List.mem_cons.mp ha with hax | hatl
      · subst hax
        exact Or.inr ((List.pairwise_cons.mp hp).1 b (List.mem_of_mem_getLast? hg'))
      · exact ih b (List.pairwise_cons.mp hp).2 hg' a hatl

/-- Unlinking a host from one of the three expiring bad caches erases it
from that cache's list and drops its class-Host table entry, touching no
other list. -/
theorem unlink_bad_fields (s : HS) (t : HType) (h : Host) (e : HEntry)
    (ht : t = HType.timeout ∨ t = HType.busy ∨ t = HType.unstable)
    (he : s.htab .host h = some e) :
    (∀ u, (hcache_unlink_host s t h).lists u
      = if u = t then (s.lists t).erase h else s.lists u) ∧
    (∀ c k, (hcache_unlink_host s t h).htab c k
      = if c = HClass.host ∧ k = h then none else s.htab c k) := by
  rcases ht with hg|hg|hg <;> subst hg <;>
  · simp only [hcache_unlink_host, setList, propSet, setDirty, hcache_ht_remove, setTab,
      hcacheClass]
    split_ifs <;>
    · simp only [he]
      constructor
      · intro u
        simp [hcache_require_caught]
      · intro c k
        simp [hcache_require_caught]

/-- The expiry walk with enough fuel: afterwards no surviving entry of the
cache is older than HOSTCACHE_EXPIRY, other lists are untouched, and table
entries of untouched hosts survive unchanged (removed ones become none). -/
theorem hcache_expire_loop_spec (now : Int) (t : HType)
    (htb : t = HType.timeout ∨ t = HType.busy ∨ t = HType.unstable) :
    ∀ (fuel : Nat) (s : HS),
      (s.lists t).length ≤ fuel →
      tabConsistent s t →
      sortedByAdded s t →
      (s.lists t).Nodup →
      (∀ h ∈ (hcache_expire_loop t now s fuel).1.lists t,
        ∀ e, (hcache_expire_loop t now s fuel).1.htab .host h = some e →
          now - e.time_added ≤ HOSTCACHE_EXPIRY) ∧
      (∀ u, u ≠ t → (hcache_expire_loop t now s fuel).1.lists u = s.lists u) ∧
      (∀ h : Host, h ∉ s.lists t →
        (hcache_expire_loop t now s fuel).1.htab .host h = s.htab .host h) ∧
      (∀ c k, (hcache_expire_loop t now s fuel).1.htab c k = s.htab c k ∨
        (hcache_expire_loop t now s fuel).1.htab c k = none) := by
  have hcls : hcacheClass t = .host := by rcases htb with h|h|h <;> subst h <;> rfl
  intro fuel
  induction fuel with
  | zero =>
    intro s hlen hcon hsort hnd
    have hnil : s.lists t = [] := List.length_eq_zero.mp (by omega)
    have hval : hcache_expire_loop t now s 0 = (s, 0) := rfl
    rw [hval]
    exact ⟨fun h hh e he => absurd hh (by rw [hnil]; simp),
      fun u _ => rfl, fun h _ => rfl, fun c k => Or.inl rfl⟩
  | succ n ih =>
    intro s hlen hcon hsort hnd
    cases hgl : (s.lists t).getLast? with
    | none =>
      have hval : hcache_expire_loop t now s (n + 1) = (s, 0) := by
        simp only [hcache_expire_loop, hgl]
      rw [hval]
      exact ⟨fun h hh e he =>
          absurd hh (by rw [List.getLast?_eq_none_iff.mp hgl]; simp),
        fun u _ => rfl, fun h _ => rfl, fun c k => Or.inl rfl⟩
    | some h0 =>
      have hmem0 : h0 ∈ s.lists t := List.mem_of_mem_getLast? hgl
      have hht : tabHasType s t h0 = true := hcon h0 hmem0
      obtain ⟨e0, he0, hety⟩ : ∃ e0, s.htab .host h0 = some e0 ∧ e0.hty = t := by
        unfold tabHasType at hht
        cases hm : s.htab .host h0 with
        | none => rw [hm] at hht; simp at hht
        | some e0 =>
          rw [hm] at hht
          simp at hht
          exact ⟨e0, rfl, hht⟩
      have he0c : s.htab (hcacheClass t) h0 = some e0 := by rw [hcls]; exact he0
      by_cases hexp : HOSTCACHE_EXPIRY < now - e0.time_added
      · -- expired: the tail is removed and the walk recurses
        have hrm : hcache_remove s (hcacheClass t) h0 = hcache_unlink_host s t h0 := by
          rw [hcls]
          simp only [hcache_remove, he0, hety]
        obtain ⟨hl, hmt⟩ := unlink_bad_fields s t h0 e0 htb he0
        obtain ⟨her, hnm⟩ := erase_getLast_of_nodup (s.lists t) h0 hgl hnd
        set s' := hcache_unlink_host s t h0 with hs'
        have hval1 : (hcache_expire_loop t now s (n + 1)).1
            = (hcache_expire_loop t now s' n).1 := by
          simp only [hcache_expire_loop, hgl, he0c, if_pos hexp, hrm, hs']
        have hlt : s'.lists t = (s.lists t).dropLast := by
          rw [hl t, if_pos rfl, her]
        have hlu : ∀ u, u ≠ t → s'.lists u = s.lists u := by
          intro u hu
          rw [hl u, if_neg hu]
        have htabeq : ∀ k, k ≠ h0 → ∀ c, s'.htab c k = s.htab c k := by
          intro k hk c
          rw [hmt c k, if_neg (by rintro ⟨_, hkk⟩; exact hk hkk)]
        have hlen' : (s'.lists t).length ≤ n := by
          rw [hlt, List.length_dropLast]
          have h1 : 1 ≤ (s.lists t).length := by
            cases hl0 : s.lists t with
            | nil => rw [hl0] at hgl; simp at hgl
            | cons _ _ => simp [hl0]
          omega
        have hcon' : tabConsistent s' t := by
          intro h hh
          rw [hlt] at hh
          have hmem : h ∈ s.lists t := (List.dropLast_sublist _).subset hh
          have hne : h ≠ h0 := fun he => hnm (he ▸ hh)
          have hc := hcon h hmem
          unfold tabHasType at hc ⊢
          rw [htabeq h hne .host]
          exact hc
        have hsort0 : (s.lists t).Pairwise
            (fun a b => addedTimeOf s b ≤ addedTimeOf s a) := hsort
        have hsort' : sortedByAdded s' t := by
          unfold sortedByAdded
          rw [hlt]
          have hsub : (s.lists t).dropLast.Pairwise
              (fun a b => addedTimeOf s b ≤ addedTimeOf s a) :=
            List.Pairwise.sublist (List.dropLast_sublist _) hsort0
          refine List.Pairwise.imp_of_mem ?_ hsub
          intro a b ha hb hr
          have hna : a ≠ h0 := fun he => hnm (he ▸ ha)
          have hnb : b ≠ h0 := fun he => hnm (he ▸ hb)
          have ha' : addedTimeOf s' a = addedTimeOf s a := by
            unfold addedTimeOf
            rw [htabeq a hna .host]
          have hb' : addedTimeOf s' b = addedTimeOf s b := by
            unfold addedTimeOf
            rw [htabeq b hnb .host]
          rw [ha', hb']
          exact hr
        have hnd' : (s'.lists t).Nodup := by
          rw [hlt]
          exact List.Nodup.sublist (List.dropLast_sublist _) hnd
        obtain ⟨c1, c2, c3, c4⟩ := ih s' hlen' hcon' hsort' hnd'
        refine ⟨?_, ?_, ?_, ?_⟩
        · intro h hh e he
          rw [hval1] at hh he
          exact c1 h hh e he
        · intro u hu
          rw [hval1, c2 u hu, hlu u hu]
        · intro h hnin
          have hne : h ≠ h0 := fun he => hnin (he ▸ hmem0)
          have hnin' : h ∉ s'.lists t := by
            rw [hlt]
            exact fun hc => hnin ((List.dropLast_sublist _).subset hc)
          rw [hval1, c3 h hnin', htabeq h hne .host]
        · intro c k
          rcases c4 c k with h4 | h4
          · rw [hval1, h4, hmt c k]
            split_ifs
            · exact Or.inr rfl
            · exact Or.inl rfl
          · rw [hval1, h4]
            exact Or.inr rfl
      · -- tail not expired: sortedness bounds every remaining entry
        have hval : hcache_expire_loop t now s (n + 1) = (s, 0) := by
          simp only [hcache_expire_loop, hgl, he0c, if_neg hexp]
        rw [hval]
        refine ⟨?_, fun u _ => rfl, fun h _ => rfl, fun c k => Or.inl rfl⟩
        intro h hh e he
        have hrel := pairwise_rel_getLast (s.lists t) h0 hsort hgl h hh
        have hth : addedTimeOf s h = e.time_added := by
          unfold addedTimeOf
          rw [he]
        have hth0 : addedTimeOf s h0 = e0.time_added := by
          unfold addedTimeOf
          rw [he0]
        rcases hrel with hrel | hrel
        · subst hrel
          rw [he] at he0
          cases he0
          omega
        · rw [hth, hth0] at hrel
          omega

/-- Two mutually consistent caches of the Host class are disjoint. -/
theorem tab_disjoint (s : HS) (t1 t2 : HType) (hne : t1 ≠ t2)
    (hcon1 : tabConsistent s t1) (hcon2 : tabConsistent s t2) :
    ∀ h, h ∈ s.lists t2 → h ∉ s.lists t1 := by
  intro h hb ht
  have h1 := hcon1 h ht
  have h2 := hcon2 h hb
  unfold tabHasType at h1 h2
  cases hm : s.htab .host h with
  | none => rw [hm] at h1; simp at h1
  | some e =>
    rw [hm] at h1 h2
    simp at h1 h2
    rw [h1] at h2
    exact hne h2

/-- C5: the once-per-second hcache_timer expires exactly the TIMEOUT, BUSY
and UNSTABLE caches: under the sortedness and table invariants, after the
pass no remaining entry of those three caches is older than 1800 seconds,
and every other cache is unchanged (the walk removes expired tails and
stops at the first non-expired one). -/
theorem hcache_timer_expiry (s : HS) (now : Int)
    (hc1 : tabConsistent s .timeout) (hc2 : tabConsistent s .busy)
    (hc3 : tabConsistent s .unstable)
    (hs1 : sortedByAdded s .timeout) (hs2 : sortedByAdded s .busy)
    (hs3 : sortedByAdded s .unstable)
    (hn1 : (s.lists .timeout).Nodup) (hn2 : (s.lists .busy).Nodup)
    (hn3 : (s.lists .unstable).Nodup) :
    (∀ t, (t = HType.timeout ∨ t = HType.busy ∨ t = HType.unstable) →
      ∀ h ∈ (hcache_timer s now).lists t, ∀ e,
        (hcache_timer s now).htab .host h = some e →
        now - e.time_added ≤ HOSTCACHE_EXPIRY) ∧
    (∀ u, ¬(u = HType.timeout ∨ u = HType.busy ∨ u = HType.unstable) →
      (hcache_timer s now).lists u = s.lists u) := by
  set s1 := (hcache_expire_loop .timeout now s (s.lists .timeout).length).1 with hs1d
  obtain ⟨t1, t2, t3, t4⟩ :=
    hcache_expire_loop_spec now .timeout (Or.inl rfl)
      (s.lists .timeout).length s (le_refl _) hc1 hs1 hn1
  -- transfer the busy invariants to s1
  have hb_list : s1.lists .busy = s.lists .busy := t2 .busy (by simp)
  have hb_nin : ∀ h, h ∈ s.lists .busy → h ∉ s.lists .timeout :=
    tab_disjoint s .timeout .busy (by simp) hc1 hc2
  have hb_tab : ∀ h, h ∈ s.lists .busy → s1.htab .host h = s.htab .host h :=
    fun h hh => t3 h (hb_nin h hh)
  have hc2' : tabConsistent s1 .busy := by
    intro h hh
    rw [hb_list] at hh
    have := hc2 h hh
    unfold tabHasType at this ⊢
    rw [hb_tab h hh]
    exact this
  have hs2' : sortedByAdded s1 .busy := by
    unfold sortedByAdded
    rw [hb_list]
    refine List.Pairwise.imp_of_mem ?_ (hs2 : (s.lists .busy).Pairwise _)
    intro a b ha hb hr
    have ha' : addedTimeOf s1 a = addedTimeOf s a := by
      unfold addedTimeOf
      rw [hb_tab a ha]
    have hb' : addedTimeOf s1 b = addedTimeOf s b := by
      unfold addedTimeOf
      rw [hb_tab b hb]
    rw [ha', hb']
    exact hr
  have hn2' : (s1.lists .busy).Nodup := by rw [hb_list]; exact hn2
  set s2 := (hcache_expire_loop .busy now s1 (s1.lists .busy).length).1 with hs2d
  obtain ⟨b1, b2, b3, b4⟩ :=
    hcache_expire_loop_spec now .busy (Or.inr (Or.inl rfl))
      (s1.lists .busy).length s1 (le_refl _) hc2' hs2' hn2'
  -- transfer the unstable invariants to s2
  have hu_list1 : s1.lists .unstable = s.lists .unstable := t2 .unstable (by simp)
  have hu_list2 : s2.lists .unstable = s.lists .unstable := by
    rw [b2 .unstable (by simp), hu_list1]
  have hu_nin_t : ∀ h, h ∈ s.lists .unstable → h ∉ s.lists .timeout :=
    tab_disjoint s .timeout .unstable (by simp) hc1 hc3
  have hu_nin_b : ∀ h, h ∈ s.lists .unstable → h ∉ s.lists .busy :=
    tab_disjoint s .busy .unstable (by simp) hc2 hc3
  have hu_tab : ∀ h, h ∈ s.lists .unstable → s2.htab .host h = s.htab .host h := by
    intro h hh
    have e1 : s1.htab .host h = s.htab .host h := t3 h (hu_nin_t h hh)
    have e2 : s2.htab .host h = s1.htab .host h := by
      refine b3 h ?_
      rw [hb_list]
      exact hu_nin_b h hh
    rw [e2, e1]
  have hc3' : tabConsistent s2 .unstable := by
    intro h hh
    rw [hu_list2] at hh
    have := hc3 h hh
    unfold tabHasType at this ⊢
    rw [hu_tab h hh]
    exact this
  have hs3' : sortedByAdded s2 .unstable := by
    unfold sortedByAdded
    rw [hu_list2]
    refine List.Pairwise.imp_of_mem ?_ (hs3 : (s.lists .unstable).Pairwise _)
    intro a b ha hb hr
    have ha' : addedTimeOf s2 a = addedTimeOf s a := by
      unfold addedTimeOf
      rw [hu_tab a ha]
    have hb' : addedTimeOf s2 b = addedTimeOf s b := by
      unfold addedTimeOf
      rw [hu_tab b hb]
    rw [ha', hb']
    exact hr
  have hn3' : (s2.lists .unstable).Nodup := by rw [hu_list2]; exact hn3
  obtain ⟨u1, u2, u3, u4⟩ :=
    hcache_expire_loop_spec now .unstable (Or.inr (Or.inr rfl))
      (s2.lists .unstable).length s2 (le_refl _) hc3' hs3' hn3'
  set s3 := (hcache_expire_loop .unstable now s2 (s2.lists .unstable).length).1 with hs3d
  have htimer : hcache_timer s now = s3 := rfl
  rw [htimer]
  constructor
  · rintro t (rfl | rfl | rfl)
    · -- timeout
      intro h hh e he
      have hl3 : s3.lists .timeout = s1.lists .timeout := by
        rw [u2 .timeout (by simp), b2 .timeout (by simp)]
      rw [hl3] at hh
      have he2 : s2.htab .host h = some e := by
        rcases u4 .host h with h4 | h4
        · rw [← h4]; exact he
        · rw [h4] at he; cases he
      have he1 : s1.htab .host h = some e := by
        rcases b4 .host h with h4 | h4
        · rw [← h4]; exact he2
        · rw [h4] at he2; cases he2
      exact t1 h hh e he1
    · -- busy
      intro h hh e he
      have hl3 : s3.lists .busy = s2.lists .busy := u2 .busy (by simp)
      rw [hl3] at hh
      have he2 : s2.htab .host h = some e := by
        rcases u4 .host h with h4 | h4
        · rw [← h4]; exact he
        · rw [h4] at he; cases he
      exact b1 h hh e he2
    · -- unstable
      intro h hh e he
      exact u1 h hh e he
  · intro u hu
    push_neg at hu
    obtain ⟨hu1, hu2, hu3⟩ := hu
    rw [u2 u hu3, b2 u hu2, t2 u hu1]

/-- C5 witness: the timer theorem on a TIMEOUT cache holding one fresh and
one expired host. -/
theorem hcache_timer_expiry_witness :
    tabConsistent sE .timeout ∧ tabConsistent sE .busy ∧ tabConsistent sE .unstable ∧
    sortedByAdded sE .timeout ∧ sortedByAdded sE .busy ∧ sortedByAdded sE .unstable ∧
    (sE.lists .timeout).Nodup ∧ (sE.lists .busy).Nodup ∧ (sE.lists .unstable).Nodup ∧
    ((∀ t, (t = HType.timeout ∨ t = HType.busy ∨ t = HType.unstable) →
      ∀ h ∈ (hcache_timer sE 5000).lists t, ∀ e,
        (hcache_timer sE 5000).htab .host h = some e →
        5000 - e.time_added ≤ HOSTCACHE_EXPIRY) ∧
     (∀ u, ¬(u = HType.timeout ∨ u = HType.busy ∨ u = HType.unstable) →
      (hcache_timer sE 5000).lists u = sE.lists u)) :=
  ⟨by decide, by decide, by decide, by decide, by decide, by decide,
   by decide, by decide, by decide,
   hcache_timer_expiry sE 5000 (by decide) (by decide) (by decide) (by decide)
     (by decide) (by decide) (by decide) (by decide) (by decide)⟩


/-- hcache_require_caught on a good kind's FRESH cache preserves the
union of the two halves. -/
theorem require_fresh_union (s : HS) (k : HostKind) (hk : k ≠ HostKind.guessK) :
    (hcache_require_caught s (kindFresh k)).2.lists (kindFresh k) ++
      (hcache_require_caught s (kindFresh k)).2.lists (kindValid k)
      = s.lists (kindFresh k) ++ s.lists (kindValid k) := by
  cases k
  case guessK => exact absurd rfl hk
  all_goals
    simp only [kindFresh, kindValid, hcache_require_caught]
  all_goals
    split_ifs with hemp
  all_goals
    first
    | rfl
    | (have hnil := List.length_eq_zero.mp hemp
       simp [hcache_move_entries, hnil])

/-- When the union of the halves is non-empty, hcache_require_caught
reports availability and leaves the FRESH cache non-empty. -/
theorem require_fresh_avail (s : HS) (k : HostKind) (hk : k ≠ HostKind.guessK)
    (hne : s.lists (kindFresh k) ++ s.lists (kindValid k) ≠ []) :
    (hcache_require_caught s (kindFresh k)).1 = true ∧
    (hcache_require_caught s (kindFresh k)).2.lists (kindFresh k) ≠ [] := by
  cases k
  case guessK => exact absurd rfl hk
  all_goals
    simp only [kindFresh, kindValid] at hne ⊢
  all_goals
    simp only [hcache_require_caught]
  all_goals
    split_ifs with hemp
  all_goals
    first
    | (have hnil := List.length_eq_zero.mp hemp
       rw [hnil] at hne
       simp only [List.nil_append] at hne
       constructor
       · simp [hcache_move_entries, hnil, hne]
       · simp [hcache_move_entries, hnil, hne])
    | (have hnemp : ¬ (s.lists _).length = 0 := hemp
       constructor
       · simp only [decide_eq_true_eq]
         omega
       · intro hc
         rw [hc] at hnemp
         simp at hnemp)

/-- When the FRESH cache of a good kind is empty, hcache_require_caught
splices the whole VALID list into it and rewrites every moved entry's
cache type. -/
theorem require_fresh_splice (s : HS) (k : HostKind) (hk : k ≠ HostKind.guessK)
    (hfe : s.lists (kindFresh k) = []) :
    (hcache_require_caught s (kindFresh k)).2.lists (kindFresh k)
      = s.lists (kindValid k) ∧
    (hcache_require_caught s (kindFresh k)).2.lists (kindValid k) = [] ∧
    (∀ h ∈ s.lists (kindValid k), ∀ e, s.htab .host h = some e →
      (hcache_require_caught s (kindFresh k)).2.htab .host h
        = some { e with hty := kindFresh k }) := by
  cases k
  case guessK => exact absurd rfl hk
  all_goals
    simp only [kindFresh, kindValid] at hfe ⊢
  all_goals
    simp only [hcache_require_caught, hfe, List.length_nil, if_pos]
  all_goals
    refine ⟨by simp [hcache_move_entries], by simp [hcache_move_entries], ?_⟩
  all_goals
    intro h hh e he
    simp only [hcache_move_entries, hcacheClass]
    split_ifs <;> simp_all

/-- Unlinking a host from the FRESH cache of a good kind removes exactly
that host from the union of the two halves (a re-splice may move the
remaining hosts between halves). -/
theorem unlink_fresh_union (s : HS) (k : HostKind) (hk : k ≠ HostKind.guessK) (h : Host) :
    (hcache_unlink_host s (kindFresh k) h).lists (kindFresh k) ++
      (hcache_unlink_host s (kindFresh k) h).lists (kindValid k)
      = (s.lists (kindFresh k)).erase h ++ s.lists (kindValid k) := by
  obtain ⟨s4, hs4eq, hs4f, hs4v⟩ :
      ∃ s4 : HS, hcache_unlink_host s (kindFresh k) h
          = (hcache_require_caught s4 (kindFresh k)).2 ∧
        s4.lists (kindFresh k) = (s.lists (kindFresh k)).erase h ∧
        s4.lists (kindValid k) = s.lists (kindValid k) := by
    cases k
    case guessK => exact absurd rfl hk
    all_goals
      simp only [kindFresh, kindValid, hcache_unlink_host, setList, propSet, setDirty,
        hcache_ht_remove, setTab, hcacheClass]
    all_goals
      split_ifs <;>
      · cases hx : s.htab HClass.host h <;>
        · exact ⟨_, rfl, by simp, by simp⟩
  rw [hs4eq, require_fresh_union s4 k hk, hs4f, hs4v]

/-- hcache_get_caught on a good kind with a non-empty union returns the
nearby host or the head of the (possibly just spliced) FRESH list, and
unlinks it. -/
theorem get_caught_flow (env : HEnv) (s : HS) (k : HostKind)
    (hk : k ≠ HostKind.guessK)
    (hne : s.lists (kindFresh k) ++ s.lists (kindValid k) ≠ []) :
    ∃ h,
      h ∈ (hcache_update_low_on_pongs env
            (hcache_require_caught s (kindFresh k)).2).lists (kindFresh k) ∧
      hcache_get_caught env s k
        = (some h,
           hcache_unlink_host
             (hcache_update_low_on_pongs env (hcache_require_caught s (kindFresh k)).2)
             (kindFresh k) h) := by
  cases k
  case guessK => exact absurd rfl hk
  case any =>
    obtain ⟨hav, hfne⟩ := require_fresh_avail s .any (by simp) hne
    simp only [kindFresh, kindValid] at hav hfne hne ⊢
    set s1 := hcache_update_low_on_pongs env (hcache_require_caught s HType.freshAny).2
      with hs1
    have hfne1 : s1.lists HType.freshAny ≠ [] := hfne
    simp only [hcache_get_caught, ← hs1, hav, Bool.not_true, Bool.false_eq_true,
      if_false, ite_false, hcache_find_nearby, kindFresh]
    by_cases hnm : env.use_netmasks <;>
      by_cases hln : env.number_local_networks = 0 <;>
        simp only [hnm, hln, decide_True, decide_False, Bool.false_and, Bool.true_and,
          Bool.and_false, Bool.and_true, Bool.not_false, Bool.not_true, ite_true,
          ite_false, Bool.false_eq_true, if_false, if_true, reduceCtorEq, ne_eq,
          not_true, not_false_iff]
    all_goals
      first
      | (cases hf : List.find? (fun hx => env.host_is_nearby hx.addr)
            (s1.lists HType.freshAny) with
         | some h =>
           simp only [hf]
           exact ⟨h, List.mem_of_find?_eq_some hf, rfl⟩
         | none =>
           simp only [hf]
           cases hh : (s1.lists HType.freshAny).head? with
           | none => exact absurd (List.head?_eq_none_iff.mp hh) hfne1
           | some h =>
             simp only [hh]
             exact ⟨h, List.mem_of_mem_head? hh, rfl⟩)
      | (cases hh : (s1.lists HType.freshAny).head? with
         | none => exact absurd (List.head?_eq_none_iff.mp hh) hfne1
         | some h =>
           simp only [hh]
           exact ⟨h, List.mem_of_mem_head? hh, rfl⟩)
  case ultra =>
    obtain ⟨hav, hfne⟩ := require_fresh_avail s .ultra (by simp) hne
    simp only [kindFresh, kindValid] at hav hfne hne ⊢
    set s1 := hcache_update_low_on_pongs env (hcache_require_caught s HType.freshUltra).2
      with hs1
    have hfne1 : s1.lists HType.freshUltra ≠ [] := hfne
    simp only [hcache_get_caught, ← hs1, hav, Bool.not_true, Bool.false_eq_true,
      if_false, ite_false, hcache_find_nearby, kindFresh]
    by_cases hnm : env.use_netmasks <;>
      by_cases hln : env.number_local_networks = 0 <;>
        simp only [hnm, hln, decide_True, decide_False, Bool.false_and, Bool.true_and,
          Bool.and_false, Bool.and_true, Bool.not_false, Bool.not_true, ite_true,
          ite_false, Bool.false_eq_true, if_false, if_true, reduceCtorEq, ne_eq,
          not_true, not_false_iff]
    all_goals
      first
      | (cases hf : List.find? (fun hx => env.host_is_nearby hx.addr)
            (s1.lists HType.freshUltra) with
         | some h =>
           simp only [hf]
           exact ⟨h, List.mem_of_find?_eq_some hf, rfl⟩
         | none =>
           simp only [hf]
           cases hh : (s1.lists HType.freshUltra).head? with
           | none => exact absurd (List.head?_eq_none_iff.mp hh) hfne1
           | some h =>
             simp only [hh]
             exact ⟨h, List.mem_of_mem_head? hh, rfl⟩)
      | (cases hh : (s1.lists HType.freshUltra).head? with
         | none => exact absurd (List.head?_eq_none_iff.mp hh) hfne1
         | some h =>
           simp only [hh]
           exact ⟨h, List.mem_of_mem_head? hh, rfl⟩)

/-- C4: for the good host kinds (ANY, ULTRA), whenever the union of the
FRESH and VALID caches is non-empty, hcache_get_caught succeeds and yields
a host that is removed from the cache; and when the FRESH cache is empty
the whole VALID list is spliced into FRESH first, every moved entry's
cache_type rewritten to the FRESH cache's type. -/
theorem hcache_get_caught_spec (env : HEnv) (s : HS) (k : HostKind)
    (hk : k ≠ HostKind.guessK)
    (hne : s.lists (kindFresh k) ++ s.lists (kindValid k) ≠ [])
    (hnd : (s.lists (kindFresh k) ++ s.lists (kindValid k)).Nodup) :
    (∃ h, (hcache_get_caught env s k).1 = some h ∧
      h ∈ s.lists (kindFresh k) ++ s.lists (kindValid k) ∧
      ((hcache_get_caught env s k).2.lists (kindFresh k) ++
        (hcache_get_caught env s k).2.lists (kindValid k))
        = (s.lists (kindFresh k) ++ s.lists (kindValid k)).erase h ∧
      h ∉ ((hcache_get_caught env s k).2.lists (kindFresh k) ++
        (hcache_get_caught env s k).2.lists (kindValid k))) ∧
    (s.lists (kindFresh k) = [] →
      (hcache_require_caught s (kindFresh k)).2.lists (kindFresh k)
        = s.lists (kindValid k) ∧
      (hcache_require_caught s (kindFresh k)).2.lists (kindValid k) = [] ∧
      (∀ h ∈ s.lists (kindValid k), ∀ e, s.htab .host h = some e →
        (hcache_require_caught s (kindFresh k)).2.htab .host h
          = some { e with hty := kindFresh k })) := by
  refine ⟨?_, fun hfe => require_fresh_splice s k hk hfe⟩
  obtain ⟨h, hmem, hval⟩ := get_caught_flow env s k hk hne
  set s1 := hcache_update_low_on_pongs env (hcache_require_caught s (kindFresh k)).2
    with hs1d
  have hu1 : s1.lists (kindFresh k) ++ s1.lists (kindValid k)
      = s.lists (kindFresh k) ++ s.lists (kindValid k) := by
    have hl : s1.lists = (hcache_require_caught s (kindFresh k)).2.lists := rfl
    rw [hl]
    exact require_fresh_union s k hk
  have hresu : ((hcache_get_caught env s k).2.lists (kindFresh k) ++
      (hcache_get_caught env s k).2.lists (kindValid k))
      = (s.lists (kindFresh k) ++ s.lists (kindValid k)).erase h := by
    rw [hval]
    show (hcache_unlink_host s1 (kindFresh k) h).lists (kindFresh k) ++
        (hcache_unlink_host s1 (kindFresh k) h).lists (kindValid k)
        = (s.lists (kindFresh k) ++ s.lists (kindValid k)).erase h
    rw [unlink_fresh_union s1 k hk h, ← List.erase_append_left _ hmem, hu1]
  refine ⟨h, ?_, ?_, ?_, ?_⟩
  · rw [hval]
  · rw [← hu1]
    exact List.mem_append_left _ hmem
  · exact hresu
  · rw [hresu]
    exact List.Nodup.not_mem_erase hnd

/-- C4 witness: with FRESH_ANY empty and one host in VALID_ANY, get_caught
splices and yields that host. -/
theorem hcache_get_caught_spec_witness :
    HostKind.any ≠ HostKind.guessK ∧
    (sV.lists (kindFresh .any) ++ sV.lists (kindValid .any) ≠ []) ∧
    (sV.lists (kindFresh .any) ++ sV.lists (kindValid .any)).Nodup ∧
    ((∃ h, (hcache_get_caught envA sV .any).1 = some h ∧
      h ∈ sV.lists (kindFresh .any) ++ sV.lists (kindValid .any) ∧
      ((hcache_get_caught envA sV .any).2.lists (kindFresh .any) ++
        (hcache_get_caught envA sV .any).2.lists (kindValid .any))
        = (sV.lists (kindFresh .any) ++ sV.lists (kindValid .any)).erase h ∧
      h ∉ ((hcache_get_caught envA sV .any).2.lists (kindFresh .any) ++
        (hcache_get_caught envA sV .any).2.lists (kindValid .any))) ∧
     (sV.lists (kindFresh .any) = [] →
      (hcache_require_caught sV (kindFresh .any)).2.lists (kindFresh .any)
        = sV.lists (kindValid .any) ∧
      (hcache_require_caught sV (kindFresh .any)).2.lists (kindValid .any) = [] ∧
      (∀ h ∈ sV.lists (kindValid .any), ∀ e, sV.htab .host h = some e →
        (hcache_require_caught sV (kindFresh .any)).2.htab .host h
          = some { e with hty := kindFresh .any }))) :=
  ⟨by decide, by decide, by decide,
    hcache_get_caught_spec envA sV .any (by decide) (by decide) (by decide)⟩

end GtkCore
